import Mathlib

/-!
# Verification of the nandu Docker-client core

Shallow embedding of the transport / codec core of the `nandu` Docker client
(`src/docker/connection.ts` and `src/docker/types.ts`) and proofs about it.

Modelling conventions:
* A JS `Uint8Array` is a `List Nat` of byte values (always `< 256` on real
  inputs; where JS coerces bytes into 32-bit arithmetic we take `% 256`,
  which is the identity on real byte values).
* JS strings are handled at the byte level: `TextDecoder().decode` followed
  by re-encoding is the identity on the ASCII inputs the theorems quantify
  over, so decoded text is represented by its byte list.  String-typed
  API-level values (repo tags, labels) use Lean `String`.
* Loops whose index is JS `number` arithmetic (and which, as the code stands,
  can move backwards) are embedded as fuel-indexed step functions returning
  `Option`; `none` means the fuel ran out.  Top-level entry points supply
  `length + 1` fuel, which suffices whenever the JS loop advances.
* `parseInt(s, base)` is modelled faithfully: leading JS whitespace, an
  optional sign, an optional `0x`/`0X` prefix (hex only), then the maximal
  run of digits; no digits gives `none` (JS `NaN`).
-/

/-! ## Byte-level helpers shared by the embeddings -/

/-- JS whitespace bytes in the ASCII range (the `\s` class and `trim`). -/
def isJsWs (b : Nat) : Bool :=
  b = 9 || b = 10 || b = 11 || b = 12 || b = 13 || b = 32

/-- ASCII decimal digit byte. -/
def isDigitByte (b : Nat) : Bool :=
  decide (48 ≤ b ∧ b ≤ 57)

/-- ASCII hexadecimal digit byte (`0-9`, `a-f`, `A-F`). -/
def isHexDigitByte (b : Nat) : Bool :=
  decide ((48 ≤ b ∧ b ≤ 57) ∨ (97 ≤ b ∧ b ≤ 102) ∨ (65 ≤ b ∧ b ≤ 70))

/-- Value of a hexadecimal digit byte. -/
def hexDigitVal (b : Nat) : Nat :=
  if b ≤ 57 then b - 48 else if 97 ≤ b then b - 87 else b - 55

/-- Value of a list of hexadecimal digit bytes, most significant first. -/
def hexValList (ds : List Nat) : Nat :=
  ds.foldl (fun a d => 16 * a + hexDigitVal d) 0

/-- Value of a list of decimal digit bytes, most significant first. -/
def decValList (ds : List Nat) : Nat :=
  ds.foldl (fun a d => 10 * a + (d - 48)) 0

/-- The bytes of an ASCII string (used to build test inputs). -/
def asciiBytes (s : String) : List Nat :=
  s.data.map Char.toNat

/-- JS `String.prototype.trim` on ASCII bytes. -/
def jsTrim (bs : List Nat) : List Nat :=
  ((bs.dropWhile isJsWs).reverse.dropWhile isJsWs).reverse

/-- JS `String.prototype.toLowerCase` on ASCII bytes. -/
def toLowerBytes (bs : List Nat) : List Nat :=
  bs.map (fun b => if 65 ≤ b ∧ b ≤ 90 then b + 32 else b)

/-- Does the second list start with the first? -/
def matchesFront : List Nat → List Nat → Bool
  | [], _ => true
  | _ :: _, [] => false
  | a :: t, b :: u => a = b && matchesFront t u

/-- JS `String.prototype.includes` on byte lists. -/
def containsSeq (needle : List Nat) : List Nat → Bool
  | [] => needle.isEmpty
  | b :: t => matchesFront needle (b :: t) || containsSeq needle t

/-- First index `i` with bytes `13, 10` at `i, i+1` (the CR LF scan of
`decodeChunkedBytes` / `processChunkedData`). -/
def findPair : List Nat → Option Nat
  | [] => none
  | a :: t => if (a :: t).take 2 = [13, 10] then some 0 else (findPair t).map (· + 1)

/-- First index of the 4-byte sequence CR LF CR LF (the header-terminator
scan of `parseHttpResponseBytes` / `findHeaderEnd`). -/
def findCRLFCRLF : List Nat → Option Nat
  | [] => none
  | a :: t =>
    if (a :: t).take 4 = [13, 10, 13, 10] then some 0 else (findCRLFCRLF t).map (· + 1)

/-- The CR LF scan starting from a JS index (negative indices read
`undefined`, which never equals 13, so scanning effectively starts at 0).
Returns an absolute position. -/
def findCRLFfrom (data : List Nat) (idx : Int) : Option Nat :=
  let s := (max idx 0).toNat
  (findPair (data.drop s)).map (· + s)

/-- JS `TypedArray.prototype.subarray` index clamping: a negative index is
relative to the end, and both ends are clamped to `[0, length]`. -/
def jsSubarray (data : List Nat) (b e : Int) : List Nat :=
  let n : Int := data.length
  let rb := if b < 0 then max (n + b) 0 else min b n
  let re := if e < 0 then max (n + e) 0 else min e n
  (data.take re.toNat).drop rb.toNat

/-- One-argument `subarray(b)`: from `b` to the end. -/
def jsSubarrayFrom (data : List Nat) (b : Int) : List Nat :=
  jsSubarray data b data.length

/-- `buffer[i]` coerced as JS does inside `<<`/`|` arithmetic: out-of-range
reads give `undefined`, and `ToInt32(undefined) = 0`. -/
def jsGet (data : List Nat) (i : Int) : Nat :=
  if i < 0 then 0 else data.getD i.toNat 0

/-- Reinterpret a value below `2^32` as a signed 32-bit integer (the result
type of JS `<<`/`|`). -/
def toSigned32 (u : Nat) : Int :=
  if u < 2147483648 then (u : Int) else (u : Int) - 4294967296

/-- The 4-byte big-endian size read
`(b[i] << 24) | (b[i+1] << 16) | (b[i+2] << 8) | b[i+3]` of the log-frame
decoders, including its signed-32-bit overflow. -/
def readBE4 (data : List Nat) (i : Int) : Int :=
  toSigned32 ((jsGet data i % 256) * 16777216 + (jsGet data (i + 1) % 256) * 65536 +
    (jsGet data (i + 2) % 256) * 256 + jsGet data (i + 3) % 256)

/-- JS `parseInt(s, 16)` on bytes: skip whitespace, optional sign, optional
`0x`/`0X`, then the maximal run of hex digits; `none` is `NaN`. -/
def jsParseIntHex (bs : List Nat) : Option Int :=
  let s1 := bs.dropWhile isJsWs
  let sg : Int × List Nat :=
    if s1.head? = some 43 then (1, s1.tail)
    else if s1.head? = some 45 then (-1, s1.tail)
    else (1, s1)
  let s3 : List Nat :=
    if sg.2.head? = some 48 ∧ (sg.2.tail.head? = some 120 ∨ sg.2.tail.head? = some 88) then
      sg.2.tail.tail
    else sg.2
  let digits := s3.takeWhile isHexDigitByte
  if digits = [] then none else some (sg.1 * (hexValList digits : Int))

/-- JS `parseInt(s, 10)` on bytes. -/
def jsParseIntDec (bs : List Nat) : Option Int :=
  let s1 := bs.dropWhile isJsWs
  let sg : Int × List Nat :=
    if s1.head? = some 43 then (1, s1.tail)
    else if s1.head? = some 45 then (-1, s1.tail)
    else (1, s1)
  let digits := sg.2.takeWhile isDigitByte
  if digits = [] then none else some (sg.1 * (decValList digits : Int))

/-! ## Hex encoding of chunk sizes (for building canonical chunked bodies) -/

/-- ASCII byte of a single hex digit, lowercase. -/
def hexByte (d : Nat) : Nat :=
  if d < 10 then 48 + d else 87 + d

/-- Accumulator worker for `hexBytes`. -/
def hexBytesAux (n : Nat) (acc : List Nat) : List Nat :=
  if h : n = 0 then acc else hexBytesAux (n / 16) (hexByte (n % 16) :: acc)
decreasing_by exact Nat.div_lt_self (Nat.pos_of_ne_zero h) (by omega)

/-- Minimal lowercase hex spelling of `n` as ASCII bytes. -/
def hexBytes (n : Nat) : List Nat :=
  if n = 0 then [48] else hexBytesAux n []

/-! ## Chunked transfer-encoding: the one-shot decoder

Embedding of `DockerConnection.decodeChunkedBytes`
(`src/docker/connection.ts`).  The collected chunks are returned already
concatenated, matching the final combine loop of the source.  One fuel unit
per iteration of the `while` loop. -/

/-- Errors of the one-shot HTTP response parser and chunk decoder. -/
inductive HttpParseError where
  | noHeaderSeparator : HttpParseError
  | invalidStatusLine : HttpParseError
  | httpError (code : Nat) (body : List Nat) : HttpParseError
  | invalidChunkSize (sizeBytes : List Nat) : HttpParseError
deriving DecidableEq

/-- The `while (index < data.length)` loop of `decodeChunkedBytes`. -/
def decodeChunkedLoop (data : List Nat) : Nat → Int → List Nat →
    Option (Except HttpParseError (List Nat))
  | 0, _, _ => none
  | fuel + 1, index, acc =>
    if index < (data.length : Int) then
      match findCRLFfrom data index with
      | none => some (.ok acc)
      | some lineEnd =>
        let sizeBytes := jsSubarray data index (lineEnd : Int)
        match jsParseIntHex sizeBytes with
        | none => some (.error (.invalidChunkSize sizeBytes))
        | some size =>
          if size = 0 then some (.ok acc)
          else
            let dataStart : Int := (lineEnd : Int) + 2
            if dataStart + size > (data.length : Int) then
              some (.ok (acc ++ jsSubarrayFrom data dataStart))
            else
              decodeChunkedLoop data fuel (dataStart + size + 2)
                (acc ++ jsSubarray data dataStart (dataStart + size))
    else some (.ok acc)

/-- `decodeChunkedBytes`: decode a whole chunked body at once. -/
def decodeChunkedBytes (data : List Nat) : Option (Except HttpParseError (List Nat)) :=
  decodeChunkedLoop data (data.length + 1) 0 []

/-! ## Chunked transfer-encoding: the incremental decoder

Embedding of `DockerConnection.processChunkedData`
(`src/docker/connection.ts`).  `onData` payloads are collected into a list;
the second component is the returned remainder `buffer.subarray(offset)`. -/

/-- The `while (offset < buffer.length)` loop of `processChunkedData`. -/
def processChunkedLoop (data : List Nat) : Nat → Int → List (List Nat) →
    Option (List (List Nat) × List Nat)
  | 0, _, _ => none
  | fuel + 1, offset, emitted =>
    if offset < (data.length : Int) then
      match findCRLFfrom data offset with
      | none => some (emitted, jsSubarrayFrom data offset)
      | some crlfPos =>
        let sizeLine := jsTrim (jsSubarray data offset (crlfPos : Int))
        match jsParseIntHex sizeLine with
        | none => processChunkedLoop data fuel ((crlfPos : Int) + 2) emitted
        | some chunkSize =>
          if chunkSize = 0 then some (emitted, [])
          else
            let dataStart : Int := (crlfPos : Int) + 2
            let dataEnd : Int := dataStart + chunkSize
            if dataEnd + 2 > (data.length : Int) then
              some (emitted, jsSubarrayFrom data offset)
            else
              processChunkedLoop data fuel (dataEnd + 2)
                (emitted ++ [jsSubarray data dataStart dataEnd])
    else some (emitted, jsSubarrayFrom data offset)

/-- `processChunkedData`: decode the complete chunks at the front of the
buffer, returning the emitted payloads and the unconsumed remainder. -/
def processChunkedData (buffer : List Nat) : Option (List (List Nat) × List Nat) :=
  processChunkedLoop buffer (buffer.length + 1) 0 []

/-- The caller-side accumulation of `requestStream`'s chunked pipeline: each
arriving piece is appended to the carried remainder and run through
`processChunkedData`. -/
def feedChunks : List (List Nat) → List (List Nat) → List Nat →
    Option (List (List Nat) × List Nat)
  | [], emitted, rem => some (emitted, rem)
  | p :: ps, emitted, rem =>
    match processChunkedData (rem ++ p) with
    | none => none
    | some (os, rem') => feedChunks ps (emitted ++ os) rem'

/-! ## Canonical chunked encodings (test-harness side) -/

/-- The wire encoding of one nonempty chunk: hex size line, CR LF, data,
CR LF. -/
def encodeChunk (c : List Nat) : List Nat :=
  hexBytes c.length ++ [13, 10] ++ c ++ [13, 10]

/-- The chunk bodies of a list of chunks, without the terminator. -/
def encList (cs : List (List Nat)) : List Nat :=
  (cs.map encodeChunk).flatten

/-- The terminating `0\r\n\r\n`. -/
def zeroTerm : List Nat := [48, 13, 10, 13, 10]

/-- The full chunked encoding of the chunk list `[c1, ..., cn, 0]`. -/
def encodeChunked (cs : List (List Nat)) : List Nat :=
  encList cs ++ zeroTerm

/-- Reference behaviour of the incremental decoder on a buffer that is a
front part of a canonical encoding `encList cs ++ zeroTerm`: the complete
leading chunks are emitted; a buffer that has reached the `0\r\n` line is
consumed entirely. -/
def specProcess : List (List Nat) → List Nat → List (List Nat) × List Nat
  | [], b => if 3 ≤ b.length then ([], []) else ([], b)
  | c :: cs, b =>
    if (encodeChunk c).length ≤ b.length then
      let r := specProcess cs (b.drop (encodeChunk c).length)
      (c :: r.1, r.2)
    else ([], b)

/-! ## HTTP response parsing (one-shot)

Embedding of `DockerConnection.parseHttpResponseBytes`
(`src/docker/connection.ts`). -/

/-- The status line: `headers.split('\r\n')[0]` at the byte level. -/
def takeToCRLF (bs : List Nat) : List Nat :=
  match findPair bs with
  | some i => bs.take i
  | none => bs

/-- One attempt of the regex `HTTP\/\d\.\d (\d+)` at the front of the list:
literal `HTTP/`, a digit, `.`, a digit, a space, then the greedy capture of
one or more digits. -/
def tryMatchStatusAt : List Nat → Option (List Nat)
  | 72 :: 84 :: 84 :: 80 :: 47 :: a :: 46 :: b :: 32 :: rest =>
    if isDigitByte a && isDigitByte b then
      match rest.takeWhile isDigitByte with
      | [] => none
      | ds => some ds
    else none
  | _ => none

/-- `statusLine.match(/HTTP\/\d\.\d (\d+)/)`: the first position where the
pattern matches, returning the captured digit run. -/
def jsMatchHttpStatus : List Nat → Option (List Nat)
  | [] => none
  | a :: t =>
    match tryMatchStatusAt (a :: t) with
    | some ds => some ds
    | none => jsMatchHttpStatus t

/-- The lowercase search string `transfer-encoding: chunked`. -/
def chunkedPattern : List Nat := asciiBytes "transfer-encoding: chunked"

/-- `parseHttpResponseBytes`: split at the first CR LF CR LF, check the
status code, decode chunked bodies.  The status code is `parseInt` of the
regex capture; the capture is a nonempty digit run, so it is its decimal
value. -/
def parseHttpResponseBytes (response : List Nat) :
    Option (Except HttpParseError (List Nat)) :=
  match findCRLFCRLF response with
  | none => some (.error .noHeaderSeparator)
  | some splitIndex =>
    let headerBytes := response.take splitIndex
    let bodyBytes := response.drop (splitIndex + 4)
    let statusLine := takeToCRLF headerBytes
    match jsMatchHttpStatus statusLine with
    | none => some (.error .invalidStatusLine)
    | some digits =>
      let statusCode := decValList digits
      if statusCode < 200 ∨ 300 ≤ statusCode then
        some (.error (.httpError statusCode bodyBytes))
      else if containsSeq chunkedPattern (toLowerBytes headerBytes) then
        decodeChunkedBytes bodyBytes
      else some (.ok bodyBytes)

/-! ## Log-frame codecs

Embeddings of `parseLogFrames` and `parseStreamingLogFrames`
(`src/docker/types.ts`). -/

/-- The stream tag attached to an emitted log line. -/
inductive StreamTag where
  | stdout : StreamTag
  | stderr : StreamTag
deriving DecidableEq

/-- `text.split('\n')` followed by popping the last fragment: the complete
lines and the kept fragment, at the byte level. -/
def splitLF : List Nat → List (List Nat) × List Nat
  | [] => ([], [])
  | b :: t =>
    let r := splitLF t
    if b = 10 then ([] :: r.1, r.2)
    else
      match r.1 with
      | l :: ls => ((b :: l) :: ls, r.2)
      | [] => ([], b :: r.2)

/-- Raw-text (TTY) decoding: split on newlines, emit the nonempty complete
lines tagged stdout, keep the last fragment as the remainder. -/
def rawDecodeTagged (buffer : List Nat) : List (List Nat × StreamTag) × List Nat :=
  let r := splitLF buffer
  ((r.1.filter (fun l => !l.isEmpty)).map (fun l => (l, StreamTag.stdout)), r.2)

/-- Strip trailing whitespace (`replace(/\s+$/g, '')`) at the byte level. -/
def rstripBytes (l : List Nat) : List Nat :=
  (l.reverse.dropWhile isJsWs).reverse

/-- The multiplexed-frame `while` loop of `parseStreamingLogFrames`: 8-byte
headers, signed big-endian size, the `size > 1000000` raw-text fallback, and
suppression of lines that strip to nothing. -/
def muxLoop (data : List Nat) : Nat → Int → List (List Nat × StreamTag) →
    Option (List (List Nat × StreamTag) × List Nat)
  | 0, _, _ => none
  | fuel + 1, offset, lines =>
    if offset < (data.length : Int) then
      if offset + 8 > (data.length : Int) then some (lines, jsSubarrayFrom data offset)
      else
        let streamType := jsGet data offset
        let size := readBE4 data (offset + 4)
        if size > 1000000 then
          let r := rawDecodeTagged (jsSubarrayFrom data offset)
          some (lines ++ r.1, r.2)
        else if offset + 8 + size > (data.length : Int) then
          some (lines, jsSubarrayFrom data offset)
        else
          let payload := jsSubarray data (offset + 8) (offset + 8 + size)
          let line := rstripBytes payload
          let tag := if streamType = 2 then StreamTag.stderr else StreamTag.stdout
          muxLoop data fuel (offset + 8 + size)
            (if line.isEmpty then lines else lines ++ [(line, tag)])
    else some (lines, jsSubarrayFrom data offset)

/-- `parseStreamingLogFrames`: detect multiplexed vs raw from the first byte
of the current buffer (`buffer[0]` of an empty buffer is `undefined`, which
is not 0, 1 or 2), then decode. -/
def parseStreamingLogFrames (buffer : List Nat) :
    Option (List (List Nat × StreamTag) × List Nat) :=
  match buffer with
  | [] => some (rawDecodeTagged [])
  | b :: _ =>
    if b = 0 ∨ b = 1 ∨ b = 2 then muxLoop buffer (buffer.length + 1) 0 []
    else some (rawDecodeTagged buffer)

/-- The per-arrival buffer accumulation of `streamContainerLogs`: each piece
is appended to the carried remainder and run through
`parseStreamingLogFrames`; emitted lines accumulate across calls. -/
def feedLogs : List (List Nat) → List (List Nat × StreamTag) → List Nat →
    Option (List (List Nat × StreamTag) × List Nat)
  | [], lines, rem => some (lines, rem)
  | p :: ps, lines, rem =>
    match parseStreamingLogFrames (rem ++ p) with
    | none => none
    | some (ls, rem') => feedLogs ps (lines ++ ls) rem'

/-- The `while` loop of the one-shot `parseLogFrames`: same header layout,
output concatenated as flat text, truncation-tolerant. -/
def parseLogFramesLoop (data : List Nat) : Nat → Int → List Nat → Option (List Nat)
  | 0, _, _ => none
  | fuel + 1, offset, out =>
    if offset < (data.length : Int) then
      if offset + 8 > (data.length : Int) then some out
      else
        let size := readBE4 data (offset + 4)
        let off2 := offset + 8
        if off2 + size > (data.length : Int) then some (out ++ jsSubarrayFrom data off2)
        else parseLogFramesLoop data fuel (off2 + size) (out ++ jsSubarray data off2 (off2 + size))
    else some out

/-- `parseLogFrames`: decode a whole multiplexed log buffer to flat text. -/
def parseLogFrames (buffer : List Nat) : Option (List Nat) :=
  parseLogFramesLoop buffer (buffer.length + 1) 0 []

/-- A multiplexed log frame (test-harness side). -/
structure Frame where
  typ : Nat
  payload : List Nat
deriving DecidableEq

/-- Big-endian 4-byte encoding of a length. -/
def be4 (n : Nat) : List Nat :=
  [n / 16777216 % 256, n / 65536 % 256, n / 256 % 256, n % 256]

/-- The wire form of one frame: type byte, three zero bytes, 4-byte
big-endian length, payload. -/
def encodeFrame (f : Frame) : List Nat :=
  f.typ :: 0 :: 0 :: 0 :: (be4 f.payload.length ++ f.payload)

/-- The concatenated wire form of a frame list. -/
def encFrames (fs : List Frame) : List Nat :=
  (fs.map encodeFrame).flatten

/-- The line the streaming decoder emits for a complete frame. -/
def frameLine (f : Frame) : List Nat × StreamTag :=
  (rstripBytes f.payload, if f.typ = 2 then StreamTag.stderr else StreamTag.stdout)

/-- Frames the streaming decoder handles in multiplexed mode: a valid type
byte, a size below the safety valve, a payload that does not strip to
nothing (such lines are suppressed), ASCII payload bytes (where the
byte-level text model is exact). -/
def GoodFrame (f : Frame) : Prop :=
  (f.typ = 0 ∨ f.typ = 1 ∨ f.typ = 2) ∧ f.payload.length ≤ 1000000 ∧
    ¬(rstripBytes f.payload).isEmpty ∧ ∀ b ∈ f.payload, b < 128

/-! ## Repo-tag splitting (`DockerClient.parseRepoTag`, `src/docker/types.ts`) -/

/-- JS `String.prototype.lastIndexOf` on a char list: `-1` when absent. -/
def lastIdxOf (cs : List Char) (c : Char) : Int :=
  match (cs.reverse.findIdx? (· = c)) with
  | some i => (cs.length : Int) - 1 - i
  | none => -1

/-- `parseRepoTag`: special-case `<none>:<none>`, else split at the last
colon unless it is at or before the last slash (registry port). -/
def parseRepoTag (repoTag : String) : String × String :=
  if repoTag = "<none>:<none>" then ("<none>", "<none>")
  else
    let cs := repoTag.data
    let lastColon := lastIdxOf cs ':'
    let lastSlash := lastIdxOf cs '/'
    if lastColon ≤ lastSlash then (repoTag, "latest")
    else (⟨cs.take lastColon.toNat⟩, ⟨cs.drop (lastColon.toNat + 1)⟩)

/-! ## Compose-label extraction (`DockerClient.extractComposeInfo`) -/

/-- JS `parseInt(s, 10)` on a string; `none` is `NaN`. -/
def jsParseIntDecStr (s : String) : Option Int :=
  jsParseIntDec (s.data.map Char.toNat)

/-- The extracted compose record. `containerNumber`'s outer `Option` is
`undefined` (label missing or empty); the inner one is `NaN`. -/
structure ComposeInfo where
  project : String
  service : String
  workingDir : Option String
  configFiles : Option String
  containerNumber : Option (Option Int)
deriving DecidableEq

/-- The `container-number` field: JS truthiness then `parseInt(v, 10)`. -/
def composeContainerNumber (labels : List (String × String)) : Option (Option Int) :=
  match List.lookup "com.docker.compose.container-number" labels with
  | some v => if v = "" then none else some (jsParseIntDecStr v)
  | none => none

/-- `extractComposeInfo`: requires truthy (present and nonempty) project and
service labels; `!project || !service` is JS truthiness, so an
empty-string label value also yields `null`. -/
def extractComposeInfo (labels : List (String × String)) : Option ComposeInfo :=
  match List.lookup "com.docker.compose.project" labels,
      List.lookup "com.docker.compose.service" labels with
  | some project, some service =>
    if project = "" ∨ service = "" then none
    else
      some { project := project, service := service,
             workingDir := List.lookup "com.docker.compose.project.working_dir" labels,
             configFiles := List.lookup "com.docker.compose.project.config_files" labels,
             containerNumber := composeContainerNumber labels }
  | _, _ => none

/-! ## Stream-handle cancellation (`requestStream` / `readStreamLoop`)

The closure state of the handle returned by `requestStream`: the
`isCancelled` flag, the `Gio.Cancellable` token, the connection, and the
number of times each callback has run.  `connection.close` inside `cancel`
is wrapped in try/catch in the source, so an already-closed connection does
not stop the sequence. -/

structure StreamState where
  cancelled : Bool
  tokenCancelled : Bool
  connClosed : Bool
  onCloseCalls : Nat
  onErrorCalls : Nat
deriving DecidableEq

/-- The `cancel` closure of the handle returned by `requestStream`: guarded
by `if (!isCancelled)`, it sets the flag, cancels the token, closes the
connection (tolerating failure) and invokes `onClose`. -/
def cancelHandle (s : StreamState) : StreamState :=
  if s.cancelled then s
  else
    { cancelled := true, tokenCancelled := true, connClosed := true,
      onCloseCalls := s.onCloseCalls + 1, onErrorCalls := s.onErrorCalls }

/-- The `isCancelled` closure of the handle. -/
def isCancelledHandle (s : StreamState) : Bool :=
  s.cancelled

/-- How `readStreamLoop` can leave its read loop. -/
inductive ReadExit where
  | eof : ReadExit
  | errorThrown : ReadExit

/-- The catch/finally tail of `readStreamLoop`: `onError` only when the
token is not cancelled, then `onClose` only when the token is not
cancelled. -/
def readLoopExit (e : ReadExit) (s : StreamState) : StreamState :=
  let s1 :=
    match e with
    | .errorThrown =>
      if !s.tokenCancelled then { s with onErrorCalls := s.onErrorCalls + 1 } else s
    | .eof => s
  if !s1.tokenCancelled then { s1 with onCloseCalls := s1.onCloseCalls + 1 } else s1

/-! ## Basic lemmas about the byte helpers -/

theorem dropWhile_eq_self_of {p : Nat → Bool} {l : List Nat}
    (h : ∀ b ∈ l, p b = false) : l.dropWhile p = l := by
  cases l with
  | nil => rfl
  | cons a t => rw [List.dropWhile_cons, if_neg (by simp [h a (by simp)])]

theorem takeWhile_eq_self_of {p : Nat → Bool} {l : List Nat}
    (h : ∀ b ∈ l, p b = true) : l.takeWhile p = l := by
  induction l with
  | nil => rfl
  | cons a t ih =>
    rw [List.takeWhile_cons, if_pos (h a (by simp)),
      ih fun b hb => h b (List.mem_cons_of_mem a hb)]

theorem jsTrim_eq_self_of {l : List Nat} (h : ∀ b ∈ l, isJsWs b = false) :
    jsTrim l = l := by
  unfold jsTrim
  rw [dropWhile_eq_self_of h, dropWhile_eq_self_of (by simpa using h)]
  simp

theorem jsSubarray_nat (l : List Nat) (b e : Nat) :
    jsSubarray l (b : Int) (e : Int) = (l.take e).drop b := by
  simp only [jsSubarray]
  rw [if_neg (by omega), if_neg (by omega)]
  have hmb : (min (b : Int) (l.length : Int)).toNat = min b l.length := by omega
  have hme : (min (e : Int) (l.length : Int)).toNat = min e l.length := by omega
  rw [hmb, hme]
  have h1 : l.take (min e l.length) = l.take e := by
    rcases Nat.le_total e l.length with h | h
    · rw [Nat.min_eq_left h]
    · rw [Nat.min_eq_right h, List.take_length, List.take_of_length_le h]
  rw [h1]
  rcases Nat.le_total b l.length with h | h
  · rw [Nat.min_eq_left h]
  · rw [Nat.min_eq_right h]
    have hlen : (l.take e).length ≤ l.length := by
      rw [List.length_take]; omega
    rw [List.drop_eq_nil_of_le (by omega), List.drop_eq_nil_of_le (by omega)]

theorem jsSubarrayFrom_nat (l : List Nat) (b : Nat) :
    jsSubarrayFrom l (b : Int) = l.drop b := by
  unfold jsSubarrayFrom
  rw [jsSubarray_nat, List.take_length]

theorem jsSubarray_extract (pre mid post : List Nat) :
    jsSubarray (pre ++ mid ++ post) (pre.length : Int) ((pre.length + mid.length : Nat) : Int) =
      mid := by
  rw [jsSubarray_nat, List.append_assoc, List.take_append, List.take_left, List.drop_left]

theorem jsSubarrayFrom_extract (pre post : List Nat) :
    jsSubarrayFrom (pre ++ post) (pre.length : Int) = post := by
  rw [jsSubarrayFrom_nat, List.drop_left]

theorem jsSubarrayFrom_extract_add (pre post : List Nat) (k : Nat) :
    jsSubarrayFrom (pre ++ post) ((pre.length + k : Nat) : Int) = post.drop k := by
  rw [jsSubarrayFrom_nat, List.drop_append]

theorem findCRLFfrom_nat (l : List Nat) (k : Nat) :
    findCRLFfrom l (k : Int) = (findPair (l.drop k)).map (· + k) := by
  unfold findCRLFfrom
  have h : (max (k : Int) 0).toNat = k := by omega
  rw [h]

theorem findCRLFfrom_extract (pre rest : List Nat) :
    findCRLFfrom (pre ++ rest) (pre.length : Int) = (findPair rest).map (· + pre.length) := by
  rw [findCRLFfrom_nat, List.drop_left]

theorem findPair_eq_none {l : List Nat} (h : ∀ b ∈ l, b ≠ 13) : findPair l = none := by
  induction l with
  | nil => rfl
  | cons a t ih =>
    have ha : a ≠ 13 := h a (by simp)
    rw [findPair, if_neg (by cases t <;> simp [ha]),
      ih fun b hb => h b (List.mem_cons_of_mem a hb)]
    rfl

theorem findPair_append_crlf {l : List Nat} (r : List Nat) (h : findPair l = none) :
    findPair (l ++ 13 :: 10 :: r) = some l.length := by
  induction l with
  | nil => simp [findPair]
  | cons a t ih =>
    rw [findPair] at h
    by_cases hc : (a :: t).take 2 = [13, 10]
    · rw [if_pos hc] at h; exact absurd h (by simp)
    · rw [if_neg hc] at h
      have ht : findPair t = none := by
        cases hfp : findPair t
        · rfl
        · rw [hfp] at h; exact absurd h (by simp)
      have hcons : ¬((a :: (t ++ 13 :: 10 :: r)).take 2 = [13, 10]) := by
        intro hx
        cases t with
        | nil =>
          simp at hx
        | cons x t' =>
          simp at hx hc
          exact hc hx.1 hx.2
      rw [List.cons_append, findPair, if_neg hcons, ih ht]
      simp

theorem findPair_append_cr {l : List Nat} (h : ∀ b ∈ l, b ≠ 13) :
    findPair (l ++ [13]) = none := by
  induction l with
  | nil => rfl
  | cons a t ih =>
    have ha : a ≠ 13 := h a (by simp)
    rw [List.cons_append, findPair, if_neg (by cases t <;> simp [ha]),
      ih fun b hb => h b (List.mem_cons_of_mem a hb)]
    rfl

theorem findCRLFCRLF_append {l : List Nat} (r : List Nat) (h : ∀ b ∈ l, b ≠ 13) :
    findCRLFCRLF (l ++ 13 :: 10 :: 13 :: 10 :: r) = some l.length := by
  induction l with
  | nil => simp [findCRLFCRLF]
  | cons a t ih =>
    have ha : a ≠ 13 := h a (by simp)
    have hcons : ¬((a :: (t ++ 13 :: 10 :: 13 :: 10 :: r)).take 4 = [13, 10, 13, 10]) := by
      intro hx
      have : a = 13 := by
        have h4 := congrArg List.head? hx
        simpa using h4
      exact ha this
    rw [List.cons_append, findCRLFCRLF, if_neg hcons,
      ih fun b hb => h b (List.mem_cons_of_mem a hb)]
    simp

/-! ## Hex digits and `parseInt` on pure digit strings -/

theorem hexDigit_not_ws {b : Nat} (h : isHexDigitByte b = true) : isJsWs b = false := by
  simp [isHexDigitByte] at h
  simp [isJsWs]
  omega

theorem hexDigit_ne_13 {b : Nat} (h : isHexDigitByte b = true) : b ≠ 13 := by
  simp [isHexDigitByte] at h
  omega

theorem hexDigit_ne_sign {b : Nat} (h : isHexDigitByte b = true) : b ≠ 43 ∧ b ≠ 45 := by
  simp [isHexDigitByte] at h
  omega

theorem hexDigit_ne_x {b : Nat} (h : isHexDigitByte b = true) : b ≠ 120 ∧ b ≠ 88 := by
  simp [isHexDigitByte] at h
  omega

theorem decDigit_not_ws {b : Nat} (h : isDigitByte b = true) : isJsWs b = false := by
  simp [isDigitByte] at h
  simp [isJsWs]
  omega

theorem decDigit_ne_sign {b : Nat} (h : isDigitByte b = true) : b ≠ 43 ∧ b ≠ 45 := by
  simp [isDigitByte] at h
  omega

theorem hexByte_isHexDigit {d : Nat} (h : d < 16) : isHexDigitByte (hexByte d) = true := by
  simp [hexByte, isHexDigitByte]
  by_cases hd : d < 10 <;> simp [hd] <;> omega

theorem hexDigitVal_hexByte {d : Nat} (h : d < 16) : hexDigitVal (hexByte d) = d := by
  unfold hexByte hexDigitVal
  by_cases hd : d < 10
  · rw [if_pos hd, if_pos (by omega)]
    omega
  · rw [if_neg hd, if_neg (by omega), if_pos (by omega)]
    omega

theorem hexBytesAux_mem {n : Nat} {acc : List Nat} (hacc : ∀ b ∈ acc, isHexDigitByte b = true) :
    ∀ b ∈ hexBytesAux n acc, isHexDigitByte b = true := by
  induction n using Nat.strong_induction_on generalizing acc with
  | _ n ih =>
    rw [hexBytesAux]
    by_cases h : n = 0
    · rw [dif_pos h]; exact hacc
    · rw [dif_neg h]
      exact ih (n / 16) (Nat.div_lt_self (Nat.pos_of_ne_zero h) (by omega))
        (by
          intro b hb
          rcases List.mem_cons.mp hb with hb | hb
          · rw [hb]; exact hexByte_isHexDigit (Nat.mod_lt n (by omega))
          · exact hacc b hb)

theorem hexBytes_mem {n : Nat} : ∀ b ∈ hexBytes n, isHexDigitByte b = true := by
  unfold hexBytes
  by_cases h : n = 0
  · rw [if_pos h]
    intro b hb
    simp at hb
    rw [hb]
    rfl
  · rw [if_neg h]
    exact hexBytesAux_mem (by simp)

theorem hexBytesAux_ne_nil : ∀ {n : Nat} (acc : List Nat), n ≠ 0 → hexBytesAux n acc ≠ [] := by
  intro n
  induction n using Nat.strong_induction_on with
  | _ n ih =>
    intro acc h
    rw [hexBytesAux, dif_neg h]
    by_cases h2 : n / 16 = 0
    · rw [hexBytesAux, dif_pos h2]; simp
    · exact ih (n / 16) (Nat.div_lt_self (Nat.pos_of_ne_zero h) (by omega)) _ h2

theorem hexBytes_ne_nil {n : Nat} : hexBytes n ≠ [] := by
  unfold hexBytes
  by_cases h : n = 0
  · rw [if_pos h]; simp
  · rw [if_neg h]; exact hexBytesAux_ne_nil _ h

theorem hexBytesAux_eq_append {n : Nat} (acc : List Nat) :
    hexBytesAux n acc = hexBytesAux n [] ++ acc := by
  induction n using Nat.strong_induction_on generalizing acc with
  | _ n ih =>
    by_cases h : n = 0
    · rw [hexBytesAux, dif_pos h, hexBytesAux, dif_pos h]; simp
    · have hlt : n / 16 < n := Nat.div_lt_self (Nat.pos_of_ne_zero h) (by omega)
      rw [hexBytesAux, dif_neg h]
      conv_rhs => rw [hexBytesAux, dif_neg h]
      rw [ih (n / 16) hlt (hexByte (n % 16) :: acc), ih (n / 16) hlt (hexByte (n % 16) :: [])]
      simp

theorem hexValList_hexBytesAux {n : Nat} : hexValList (hexBytesAux n []) = n := by
  induction n using Nat.strong_induction_on with
  | _ n ih =>
    by_cases h : n = 0
    · subst h; rw [hexBytesAux, dif_pos rfl]; rfl
    · have hlt : n / 16 < n := Nat.div_lt_self (Nat.pos_of_ne_zero h) (by omega)
      rw [hexBytesAux, dif_neg h, hexBytesAux_eq_append]
      unfold hexValList
      rw [List.foldl_append]
      have hih : List.foldl (fun a d => 16 * a + hexDigitVal d) 0 (hexBytesAux (n / 16) []) =
          n / 16 := ih (n / 16) hlt
      rw [hih]
      simp [hexDigitVal_hexByte (Nat.mod_lt n (by omega))]
      omega

theorem hexValList_hexBytes {n : Nat} : hexValList (hexBytes n) = n := by
  unfold hexBytes
  by_cases h : n = 0
  · rw [if_pos h, h]; rfl
  · rw [if_neg h]; exact hexValList_hexBytesAux

theorem jsParseIntHex_digits {ds : List Nat} (h : ds ≠ [])
    (hd : ∀ b ∈ ds, isHexDigitByte b = true) :
    jsParseIntHex ds = some ((hexValList ds : Int)) := by
  obtain ⟨d, t, rfl⟩ : ∃ d t, ds = d :: t := by
    cases ds with
    | nil => exact absurd rfl h
    | cons d t => exact ⟨d, t, rfl⟩
  have hfirst := hd d (by simp)
  have h43 : d ≠ 43 := (hexDigit_ne_sign hfirst).1
  have h45 : d ≠ 45 := (hexDigit_ne_sign hfirst).2
  have hdw : List.dropWhile isJsWs (d :: t) = d :: t :=
    dropWhile_eq_self_of fun b hb => hexDigit_not_ws (hd b hb)
  have htw : List.takeWhile isHexDigitByte (d :: t) = d :: t := takeWhile_eq_self_of hd
  have h120 : t.head? ≠ some 120 := by
    cases t with
    | nil => simp
    | cons x t' =>
      simp
      exact (hexDigit_ne_x (hd x (by simp))).1
  have h88 : t.head? ≠ some 88 := by
    cases t with
    | nil => simp
    | cons x t' =>
      simp
      exact (hexDigit_ne_x (hd x (by simp))).2
  simp [jsParseIntHex, hdw, htw, h43, h45, h120, h88]

theorem jsParseIntDec_digits {ds : List Nat} (h : ds ≠ [])
    (hd : ∀ b ∈ ds, isDigitByte b = true) :
    jsParseIntDec ds = some ((decValList ds : Int)) := by
  obtain ⟨d, t, rfl⟩ : ∃ d t, ds = d :: t := by
    cases ds with
    | nil => exact absurd rfl h
    | cons d t => exact ⟨d, t, rfl⟩
  have hfirst := hd d (by simp)
  have h43 : d ≠ 43 := (decDigit_ne_sign hfirst).1
  have h45 : d ≠ 45 := (decDigit_ne_sign hfirst).2
  have hdw : List.dropWhile isJsWs (d :: t) = d :: t :=
    dropWhile_eq_self_of fun b hb => decDigit_not_ws (hd b hb)
  have htw : List.takeWhile isDigitByte (d :: t) = d :: t := takeWhile_eq_self_of hd
  simp [jsParseIntDec, hdw, htw, h43, h45]

theorem jsParseIntHex_hexBytes {n : Nat} : jsParseIntHex (hexBytes n) = some ((n : Int)) := by
  rw [jsParseIntHex_digits hexBytes_ne_nil hexBytes_mem, hexValList_hexBytes]

/-! ## Claim theorems: cancellation, termination bug, repo tags, compose labels -/

/-- C5: `cancel()` on a stream handle is idempotent — the first invocation
sets `isCancelled()`, signals the cancellable token, closes the connection
(tolerating an already-closed one) and invokes `onClose` exactly once; a
second invocation is a no-op; and the read-loop tail delivers no `onError`
(and no second `onClose`) for a read that fails after that cancellation. -/
theorem cancel_discipline (s : StreamState) (h : s.cancelled = false) :
    (cancelHandle s).cancelled = true ∧
    isCancelledHandle (cancelHandle s) = true ∧
    (cancelHandle s).tokenCancelled = true ∧
    (cancelHandle s).connClosed = true ∧
    (cancelHandle s).onCloseCalls = s.onCloseCalls + 1 ∧
    (cancelHandle s).onErrorCalls = s.onErrorCalls ∧
    cancelHandle (cancelHandle s) = cancelHandle s ∧
    readLoopExit .errorThrown (cancelHandle s) = cancelHandle s := by
  simp [cancelHandle, isCancelledHandle, readLoopExit, h]

/-- Witness for C5 at a fresh stream state. -/
theorem cancel_discipline_witness :
    (StreamState.mk false false false 0 0).cancelled = false ∧
    (cancelHandle ⟨false, false, false, 0, 0⟩).onCloseCalls = 1 ∧
    cancelHandle (cancelHandle ⟨false, false, false, 0, 0⟩) =
      cancelHandle ⟨false, false, false, 0, 0⟩ ∧
    readLoopExit .errorThrown (cancelHandle ⟨false, false, false, 0, 0⟩) =
      cancelHandle ⟨false, false, false, 0, 0⟩ := by
  have h := cancel_discipline ⟨false, false, false, 0, 0⟩ rfl
  exact ⟨rfl, h.2.2.2.2.1, h.2.2.2.2.2.2.1, h.2.2.2.2.2.2.2⟩

/-- C8 (code bug): the one-shot log-frame decoder does not terminate on the
8-byte buffer `[0,0,0,0,255,255,255,248]`, whose header declares the signed
size `-8`: the loop returns to offset 0 with unchanged output on every
iteration, so no amount of fuel completes it; the multiplexed branch of the
streaming decoder loops on the same input. -/
theorem parseLogFrames_nontermination :
    (∀ fuel acc, parseLogFramesLoop [0, 0, 0, 0, 255, 255, 255, 248] fuel 0 acc = none) ∧
    parseLogFrames [0, 0, 0, 0, 255, 255, 255, 248] = none ∧
    (∀ fuel lines, muxLoop [0, 0, 0, 0, 255, 255, 255, 248] fuel 0 lines = none) ∧
    parseStreamingLogFrames [0, 0, 0, 0, 255, 255, 255, 248] = none := by
  have hsize : readBE4 [0, 0, 0, 0, 255, 255, 255, 248] (0 + 4) = -8 := by decide
  have hsub : jsSubarray [0, 0, 0, 0, 255, 255, 255, 248] (0 + 8) (0 + 8 + -8) = [] := by
    decide
  have h1 : ∀ fuel acc, parseLogFramesLoop [0, 0, 0, 0, 255, 255, 255, 248] fuel 0 acc =
      none := by
    intro fuel
    induction fuel with
    | zero => intro acc; rfl
    | succ f ih =>
      intro acc
      simp only [parseLogFramesLoop]
      rw [if_pos (by decide), if_neg (by decide), hsize]
      rw [if_neg (by decide), hsub, List.append_nil,
        show ((0 : Int) + 8 + -8) = 0 from by decide]
      exact ih acc
  have h3 : ∀ fuel lines, muxLoop [0, 0, 0, 0, 255, 255, 255, 248] fuel 0 lines = none := by
    intro fuel
    induction fuel with
    | zero => intro lines; rfl
    | succ f ih =>
      intro lines
      simp only [muxLoop]
      rw [if_pos (by decide), if_neg (by decide), hsize]
      rw [if_neg (by decide), if_neg (by decide),
        show jsSubarray [0, 0, 0, 0, 255, 255, 255, 248] (0 + 8) (0 + 8 + -8) = [] from
          by decide]
      rw [show (rstripBytes []).isEmpty = true from rfl]
      simp only [if_pos rfl]
      rw [show ((0 : Int) + 8 + -8) = 0 from by decide]
      exact ih lines
  refine ⟨h1, h1 9 [], h3, ?_⟩
  show muxLoop [0, 0, 0, 0, 255, 255, 255, 248] 9 0 [] = none
  exact h3 9 []

/-- C9: repo-tag splitting compares the last colon's position with the last
slash's (colon at or before the slash ⇒ no tag, `latest` assumed), and gives
the five specified example results. -/
theorem parseRepoTag_cases :
    (∀ s : String, s ≠ "<none>:<none>" → lastIdxOf s.data ':' ≤ lastIdxOf s.data '/' →
      parseRepoTag s = (s, "latest")) ∧
    parseRepoTag "nginx" = ("nginx", "latest") ∧
    parseRepoTag "nginx:1.25" = ("nginx", "1.25") ∧
    parseRepoTag "localhost:5000/app" = ("localhost:5000/app", "latest") ∧
    parseRepoTag "localhost:5000/app:v2" = ("localhost:5000/app", "v2") ∧
    parseRepoTag "<none>:<none>" = ("<none>", "<none>") := by
  refine ⟨?_, by decide, by decide, by decide, by decide, by decide⟩
  intro s hne hle
  rw [parseRepoTag, if_neg hne, if_pos hle]

/-- Witness for C9's general no-tag rule at `"nginx"`. -/
theorem parseRepoTag_cases_witness :
    ("nginx" : String) ≠ "<none>:<none>" ∧
    lastIdxOf ("nginx" : String).data ':' ≤ lastIdxOf ("nginx" : String).data '/' ∧
    parseRepoTag "nginx" = ("nginx", "latest") := by
  exact ⟨by decide, by decide, parseRepoTag_cases.1 "nginx" (by decide) (by decide)⟩

/-- C10 counterexample: a label map in which both
`com.docker.compose.project` and `com.docker.compose.service` are present —
but the project value is the empty string — yields `null` (the source tests
JS truthiness, `!project || !service`), contradicting the claim that
presence of both labels yields a populated record. -/
theorem compose_empty_label_cex :
    (List.lookup "com.docker.compose.project"
      [("com.docker.compose.project", ""), ("com.docker.compose.service", "web")]).isSome ∧
    (List.lookup "com.docker.compose.service"
      [("com.docker.compose.project", ""), ("com.docker.compose.service", "web")]).isSome ∧
    extractComposeInfo
      [("com.docker.compose.project", ""), ("com.docker.compose.service", "web")] = none := by
  refine ⟨by decide, by decide, ?_⟩
  rfl

/-- C10 (amended): `extractComposeInfo` yields `null` unless BOTH compose
labels are present with non-empty values; when both are non-empty it yields
the populated record, whose optional container-number is `parseInt` of the
`com.docker.compose.container-number` label when that label is present and
non-empty. -/
theorem compose_extract_amended (labels : List (String × String)) :
    ((List.lookup "com.docker.compose.project" labels = none ∨
      List.lookup "com.docker.compose.project" labels = some "" ∨
      List.lookup "com.docker.compose.service" labels = none ∨
      List.lookup "com.docker.compose.service" labels = some "") →
        extractComposeInfo labels = none) ∧
    (∀ p s, List.lookup "com.docker.compose.project" labels = some p → p ≠ "" →
      List.lookup "com.docker.compose.service" labels = some s → s ≠ "" →
      extractComposeInfo labels =
        some { project := p, service := s,
               workingDir := List.lookup "com.docker.compose.project.working_dir" labels,
               configFiles := List.lookup "com.docker.compose.project.config_files" labels,
               containerNumber := composeContainerNumber labels }) ∧
    (∀ v, List.lookup "com.docker.compose.container-number" labels = some v → v ≠ "" →
      composeContainerNumber labels = some (jsParseIntDecStr v)) := by
  refine ⟨?_, ?_, ?_⟩
  · intro h
    unfold extractComposeInfo
    rcases h with h | h | h | h
    · rw [h]
    · rw [h]
      cases hs : List.lookup "com.docker.compose.service" labels <;> simp
    · rw [h]
      cases hp : List.lookup "com.docker.compose.project" labels <;> simp
    · rw [h]
      cases hp : List.lookup "com.docker.compose.project" labels <;> simp
  · intro p s hp hpne hs hsne
    simp [extractComposeInfo, hp, hs, hpne, hsne]
  · intro v hv hvne
    simp [composeContainerNumber, hv, hvne]

/-- Witness for C10's amended claim at a concrete compose label map. -/
theorem compose_extract_amended_witness :
    extractComposeInfo [("com.docker.compose.project", "demo"),
      ("com.docker.compose.service", "web"), ("com.docker.compose.container-number", "3")] =
      some { project := "demo", service := "web", workingDir := none, configFiles := none,
             containerNumber := some (some 3) } := by
  have h := (compose_extract_amended [("com.docker.compose.project", "demo"),
    ("com.docker.compose.service", "web"),
    ("com.docker.compose.container-number", "3")]).2.1 "demo" "web" (by decide) (by decide)
    (by decide) (by decide)
  rw [h]
  rfl


deriving instance DecidableEq for Except
/-- C2: for the canned socket response
`HTTP/1.1 200 OK\r\nTransfer-Encoding: chunked\r\n\r\n4\r\nabcd\r\n0\r\n\r\n`,
the one-shot parser splits at the first CR LF CR LF, detects the chunked
header case-insensitively, and the chunked decoder yields the bytes of
`abcd` (which `request()` then decodes to the text `abcd`). -/
theorem request_one_shot_example :
    parseHttpResponseBytes
      (asciiBytes "HTTP/1.1 200 OK\r\nTransfer-Encoding: chunked\r\n\r\n4\r\nabcd\r\n0\r\n\r\n") =
      some (.ok (asciiBytes "abcd")) := by
  decide

/-- C3 counterexample: the multiplexed-vs-raw decision is not made once at
first data.  A stream whose first data is `A\n` (first byte 65, not a
stream-type marker) is decoded raw and leaves an empty remainder; the very
next call of the same stream, on a buffer beginning with the marker byte 1,
is decoded as multiplexed (emitting the frame payload `B`), not as raw text
(which would emit the whole 9-byte line) — so the raw decision did not hold
for the stream's lifetime. -/
theorem streaming_log_mode_not_sticky_cex :
    ¬((65 : Nat) = 0 ∨ (65 : Nat) = 1 ∨ (65 : Nat) = 2) ∧
    parseStreamingLogFrames [65, 10] = some ([([65], .stdout)], []) ∧
    parseStreamingLogFrames [1, 0, 0, 0, 0, 0, 0, 2, 66, 10] =
      some ([([66], .stdout)], []) ∧
    rawDecodeTagged [1, 0, 0, 0, 0, 0, 0, 2, 66, 10] =
      ([([1, 0, 0, 0, 0, 0, 0, 2, 66], .stdout)], []) ∧
    ([([66], StreamTag.stdout)], ([] : List Nat)) ≠
      ([([1, 0, 0, 0, 0, 0, 0, 2, 66], StreamTag.stdout)], ([] : List Nat)) ∧
    feedLogs [[65, 10], [1, 0, 0, 0, 0, 0, 0, 2, 66, 10]] [] [] =
      some ([([65], .stdout), ([66], .stdout)], []) := by
  exact ⟨by decide, by decide, by decide, by decide, by decide, by decide⟩

/-! ## Status-code handling (C6) -/

theorem matchesFront_false_of_longer :
    ∀ {needle hay : List Nat}, hay.length < needle.length → matchesFront needle hay = false := by
  intro needle
  induction needle with
  | nil => intro hay h; simp at h
  | cons a t ih =>
    intro hay h
    cases hay with
    | nil => rfl
    | cons b u =>
      simp at h
      rw [matchesFront, ih (by omega)]
      simp

theorem containsSeq_eq_false_of_longer {needle : List Nat} :
    ∀ {hay : List Nat}, hay.length < needle.length → containsSeq needle hay = false := by
  intro hay
  induction hay with
  | nil =>
    intro h
    cases needle with
    | nil => simp at h
    | cons a t => rfl
  | cons b u ih =>
    intro h
    rw [containsSeq, matchesFront_false_of_longer h, ih (by simp at h; omega)]
    rfl

/-- A canonical well-formed non-chunked response
`HTTP/1.1 <d1 d2 d3> OK\r\n\r\n<body>` (test-harness side). -/
def mkHttpResponse (d1 d2 d3 : Nat) (body : List Nat) : List Nat :=
  72 :: 84 :: 84 :: 80 :: 47 :: 49 :: 46 :: 49 :: 32 :: d1 :: d2 :: d3 :: 32 :: 79 :: 75 ::
    13 :: 10 :: 13 :: 10 :: body

/-- C6: for every well-formed response with a three-digit status code, the
one-shot parser returns exactly the body bytes when the code is in
[200,300), and an HTTP error carrying the code and the body bytes
otherwise. -/
theorem status_code_handling (d1 d2 d3 : Nat) (body : List Nat)
    (h1 : isDigitByte d1 = true) (h2 : isDigitByte d2 = true) (h3 : isDigitByte d3 = true) :
    parseHttpResponseBytes (mkHttpResponse d1 d2 d3 body) =
      if 200 ≤ decValList [d1, d2, d3] ∧ decValList [d1, d2, d3] < 300 then
        some (.ok body)
      else some (.error (.httpError (decValList [d1, d2, d3]) body)) := by
  have hb1 : 48 ≤ d1 ∧ d1 ≤ 57 := by simpa [isDigitByte] using h1
  have hb2 : 48 ≤ d2 ∧ d2 ≤ 57 := by simpa [isDigitByte] using h2
  have hb3 : 48 ≤ d3 ∧ d3 ≤ 57 := by simpa [isDigitByte] using h3
  have hAll13 : ∀ b ∈ (72 :: 84 :: 84 :: 80 :: 47 :: 49 :: 46 :: 49 :: 32 :: d1 :: d2 :: d3 ::
      32 :: 79 :: 75 :: [] : List Nat), b ≠ 13 := by
    intro b hb
    simp at hb
    rcases hb with rfl | rfl | rfl | rfl | rfl | rfl | rfl | rfl | rfl | rfl | rfl | rfl |
      rfl | rfl | rfl <;> omega
  have hshape : mkHttpResponse d1 d2 d3 body =
      (72 :: 84 :: 84 :: 80 :: 47 :: 49 :: 46 :: 49 :: 32 :: d1 :: d2 :: d3 ::
        32 :: 79 :: 75 :: []) ++ 13 :: 10 :: 13 :: 10 :: body := rfl
  rw [hshape]
  have hfind : findCRLFCRLF ((72 :: 84 :: 84 :: 80 :: 47 :: 49 :: 46 :: 49 :: 32 :: d1 :: d2 ::
      d3 :: 32 :: 79 :: 75 :: []) ++ 13 :: 10 :: 13 :: 10 :: body) =
      some (72 :: 84 :: 84 :: 80 :: 47 :: 49 :: 46 :: 49 :: 32 :: d1 :: d2 :: d3 ::
        32 :: 79 :: 75 :: ([] : List Nat)).length := findCRLFCRLF_append _ hAll13
  have hdrop : List.drop 4 (13 :: 10 :: 13 :: 10 :: body) = body := rfl
  have hstatus : takeToCRLF (72 :: 84 :: 84 :: 80 :: 47 :: 49 :: 46 :: 49 :: 32 :: d1 :: d2 ::
      d3 :: 32 :: 79 :: 75 :: []) =
      72 :: 84 :: 84 :: 80 :: 47 :: 49 :: 46 :: 49 :: 32 :: d1 :: d2 :: d3 ::
        32 :: 79 :: 75 :: [] := by
    unfold takeToCRLF
    rw [findPair_eq_none hAll13]
  have hmatch : jsMatchHttpStatus (72 :: 84 :: 84 :: 80 :: 47 :: 49 :: 46 :: 49 :: 32 :: d1 ::
      d2 :: d3 :: 32 :: 79 :: 75 :: []) = some [d1, d2, d3] := by
    rw [jsMatchHttpStatus]
    have htry : tryMatchStatusAt (72 :: 84 :: 84 :: 80 :: 47 :: 49 :: 46 :: 49 :: 32 :: d1 ::
        d2 :: d3 :: 32 :: 79 :: 75 :: []) = some [d1, d2, d3] := by
      rw [tryMatchStatusAt]
      rw [if_pos (by decide)]
      have htw : List.takeWhile isDigitByte (d1 :: d2 :: d3 :: 32 :: 79 :: 75 :: []) =
          [d1, d2, d3] := by
        rw [List.takeWhile_cons, if_pos h1, List.takeWhile_cons, if_pos h2,
          List.takeWhile_cons, if_pos h3, List.takeWhile_cons, if_neg (by decide)]
      rw [htw]
    rw [htry]
  have hnc : containsSeq chunkedPattern (toLowerBytes (72 :: 84 :: 84 :: 80 :: 47 :: 49 ::
      46 :: 49 :: 32 :: d1 :: d2 :: d3 :: 32 :: 79 :: 75 :: [])) = false := by
    apply containsSeq_eq_false_of_longer
    simp [toLowerBytes, chunkedPattern, asciiBytes]
  simp only [parseHttpResponseBytes, hfind, List.take_left, List.drop_append, hdrop, hstatus,
    hmatch]
  by_cases hc : 200 ≤ decValList [d1, d2, d3] ∧ decValList [d1, d2, d3] < 300
  · rw [if_pos hc, if_neg (by omega), hnc]
    simp
  · rw [if_neg hc, if_pos (by omega)]

/-- Witness for C6 at status codes 404 and 200. -/
theorem status_code_handling_witness :
    parseHttpResponseBytes (mkHttpResponse 52 48 52 [110]) =
      some (.error (.httpError 404 [110])) ∧
    parseHttpResponseBytes (mkHttpResponse 50 48 48 [110]) = some (.ok [110]) := by
  constructor
  · rw [status_code_handling 52 48 52 [110] (by decide) (by decide) (by decide)]
    decide
  · rw [status_code_handling 50 48 48 [110] (by decide) (by decide) (by decide)]
    decide

/-! ## Step lemmas for the incremental chunked loop -/

theorem processLoop_stuck_noCRLF (pre b : List Nat) (emitted : List (List Nat)) (fuel : Nat)
    (hfp : findPair b = none) :
    processChunkedLoop (pre ++ b) (fuel + 1) (pre.length : Int) emitted =
      some (emitted, b) := by
  rw [processChunkedLoop]
  by_cases hguard : (pre.length : Int) < ((pre ++ b).length : Int)
  · rw [if_pos hguard, findCRLFfrom_extract, hfp]
    simp [jsSubarrayFrom_nat, List.drop_left]
  · rw [if_neg hguard]
    have hb : b = [] := by
      have := List.length_append pre b
      rcases b with - | ⟨x, t⟩
      · rfl
      · exfalso
        apply hguard
        rw [List.length_append]
        push_cast
        simp
    subst hb
    simp [jsSubarrayFrom_nat, List.drop_left]

theorem processLoop_step_sized (pre sz c rest : List Nat) (emitted : List (List Nat))
    (fuel : Nat) (n : Nat) (hsz : findPair sz = none)
    (hparse : jsParseIntHex (jsTrim sz) = some (n : Int)) (hn : n ≠ 0) (hc : c.length = n) :
    processChunkedLoop (pre ++ (sz ++ 13 :: 10 :: (c ++ 13 :: 10 :: rest))) (fuel + 1)
      (pre.length : Int) emitted =
    processChunkedLoop (pre ++ (sz ++ 13 :: 10 :: (c ++ 13 :: 10 :: rest))) fuel
      ((pre.length + sz.length + 2 + n + 2 : Nat) : Int) (emitted ++ [c]) := by
  have hlen : (pre ++ (sz ++ 13 :: 10 :: (c ++ 13 :: 10 :: rest))).length =
      pre.length + sz.length + 2 + c.length + 2 + rest.length := by
    simp
    omega
  have hguard : (pre.length : Int) < ((pre ++ (sz ++ 13 :: 10 :: (c ++ 13 :: 10 :: rest))).length : Int) := by
    rw [hlen]
    push_cast
    omega
  have hfind : findCRLFfrom (pre ++ (sz ++ 13 :: 10 :: (c ++ 13 :: 10 :: rest)))
      (pre.length : Int) = some (sz.length + pre.length) := by
    rw [findCRLFfrom_extract, findPair_append_crlf _ hsz]
    rfl
  have hsizeline : jsSubarray (pre ++ (sz ++ 13 :: 10 :: (c ++ 13 :: 10 :: rest)))
      (pre.length : Int) ((sz.length + pre.length : Nat) : Int) = sz := by
    rw [Nat.add_comm sz.length pre.length, ← List.append_assoc]
    exact jsSubarray_extract pre sz _
  have hpayload : jsSubarray (pre ++ (sz ++ 13 :: 10 :: (c ++ 13 :: 10 :: rest)))
      (((sz.length + pre.length : Nat) : Int) + 2)
      (((sz.length + pre.length : Nat) : Int) + 2 + (n : Int)) = c := by
    have hshape : pre ++ (sz ++ 13 :: 10 :: (c ++ 13 :: 10 :: rest)) =
        (pre ++ sz ++ [13, 10]) ++ c ++ (13 :: 10 :: rest) := by
      simp
    rw [hshape]
    have h1 : (((sz.length + pre.length : Nat) : Int) + 2) =
        (((pre ++ sz ++ [13, 10]).length : Nat) : Int) := by
      simp
      push_cast
      omega
    have h2 : (((sz.length + pre.length : Nat) : Int) + 2 + (n : Int)) =
        (((pre ++ sz ++ [13, 10]).length + c.length : Nat) : Int) := by
      simp [hc]
      push_cast
      omega
    rw [h2, h1]
    exact jsSubarray_extract _ c _
  rw [processChunkedLoop, if_pos hguard, hfind]
  simp only [hsizeline, hparse]
  rw [if_neg (by exact_mod_cast hn)]
  rw [if_neg (by rw [hlen]; push_cast; omega)]
  rw [hpayload]
  have hoff : (((sz.length + pre.length : Nat) : Int) + 2 + (n : Int) + 2) =
      ((pre.length + sz.length + 2 + n + 2 : Nat) : Int) := by
    push_cast
    ring
  rw [hoff]

theorem processLoop_zero (pre sz rest : List Nat) (emitted : List (List Nat)) (fuel : Nat)
    (hsz : findPair sz = none) (hparse : jsParseIntHex (jsTrim sz) = some 0) :
    processChunkedLoop (pre ++ (sz ++ 13 :: 10 :: rest)) (fuel + 1)
      (pre.length : Int) emitted = some (emitted, []) := by
  have hlen : (pre ++ (sz ++ 13 :: 10 :: rest)).length =
      pre.length + sz.length + 2 + rest.length := by
    simp
    omega
  have hguard : (pre.length : Int) < ((pre ++ (sz ++ 13 :: 10 :: rest)).length : Int) := by
    rw [hlen]; push_cast; omega
  have hfind : findCRLFfrom (pre ++ (sz ++ 13 :: 10 :: rest)) (pre.length : Int) =
      some (sz.length + pre.length) := by
    rw [findCRLFfrom_extract, findPair_append_crlf _ hsz]
    rfl
  have hsizeline : jsSubarray (pre ++ (sz ++ 13 :: 10 :: rest)) (pre.length : Int)
      ((sz.length + pre.length : Nat) : Int) = sz := by
    rw [Nat.add_comm sz.length pre.length, ← List.append_assoc]
    exact jsSubarray_extract pre sz _
  rw [processChunkedLoop, if_pos hguard, hfind]
  simp only [hsizeline, hparse]
  simp

theorem processLoop_skip (pre sz rest : List Nat) (emitted : List (List Nat)) (fuel : Nat)
    (hsz : findPair sz = none) (hparse : jsParseIntHex (jsTrim sz) = none) :
    processChunkedLoop (pre ++ (sz ++ 13 :: 10 :: rest)) (fuel + 1)
      (pre.length : Int) emitted =
    processChunkedLoop (pre ++ (sz ++ 13 :: 10 :: rest)) fuel
      ((pre.length + sz.length + 2 : Nat) : Int) emitted := by
  have hlen : (pre ++ (sz ++ 13 :: 10 :: rest)).length =
      pre.length + sz.length + 2 + rest.length := by
    simp
    omega
  have hguard : (pre.length : Int) < ((pre ++ (sz ++ 13 :: 10 :: rest)).length : Int) := by
    rw [hlen]; push_cast; omega
  have hfind : findCRLFfrom (pre ++ (sz ++ 13 :: 10 :: rest)) (pre.length : Int) =
      some (sz.length + pre.length) := by
    rw [findCRLFfrom_extract, findPair_append_crlf _ hsz]
    rfl
  have hsizeline : jsSubarray (pre ++ (sz ++ 13 :: 10 :: rest)) (pre.length : Int)
      ((sz.length + pre.length : Nat) : Int) = sz := by
    rw [Nat.add_comm sz.length pre.length, ← List.append_assoc]
    exact jsSubarray_extract pre sz _
  rw [processChunkedLoop, if_pos hguard, hfind]
  simp only [hsizeline, hparse]
  have hoff : (((sz.length + pre.length : Nat) : Int) + 2) =
      ((pre.length + sz.length + 2 : Nat) : Int) := by
    push_cast
    ring
  rw [hoff]

theorem processLoop_stuck_short (pre sz d : List Nat) (emitted : List (List Nat)) (fuel : Nat)
    (n : Nat) (hsz : findPair sz = none)
    (hparse : jsParseIntHex (jsTrim sz) = some (n : Int)) (hn : n ≠ 0)
    (hshort : d.length < n + 2) :
    processChunkedLoop (pre ++ (sz ++ 13 :: 10 :: d)) (fuel + 1)
      (pre.length : Int) emitted = some (emitted, sz ++ 13 :: 10 :: d) := by
  have hlen : (pre ++ (sz ++ 13 :: 10 :: d)).length =
      pre.length + sz.length + 2 + d.length := by
    simp
    omega
  have hguard : (pre.length : Int) < ((pre ++ (sz ++ 13 :: 10 :: d)).length : Int) := by
    rw [hlen]; push_cast; omega
  have hfind : findCRLFfrom (pre ++ (sz ++ 13 :: 10 :: d)) (pre.length : Int) =
      some (sz.length + pre.length) := by
    rw [findCRLFfrom_extract, findPair_append_crlf _ hsz]
    rfl
  have hsizeline : jsSubarray (pre ++ (sz ++ 13 :: 10 :: d)) (pre.length : Int)
      ((sz.length + pre.length : Nat) : Int) = sz := by
    rw [Nat.add_comm sz.length pre.length, ← List.append_assoc]
    exact jsSubarray_extract pre sz _
  rw [processChunkedLoop, if_pos hguard, hfind]
  simp only [hsizeline, hparse]
  rw [if_neg (by exact_mod_cast hn)]
  rw [if_pos (by rw [hlen]; push_cast; omega)]
  rw [jsSubarrayFrom_nat, List.drop_left]

theorem findPair_hexBytes {n : Nat} : findPair (hexBytes n) = none :=
  findPair_eq_none fun b hb => hexDigit_ne_13 (hexBytes_mem b hb)

theorem findPair_hexBytes_take {n k : Nat} : findPair ((hexBytes n).take k) = none :=
  findPair_eq_none fun b hb => hexDigit_ne_13 (hexBytes_mem b (List.mem_of_mem_take hb))

theorem jsTrim_hexBytes {n : Nat} : jsTrim (hexBytes n) = hexBytes n :=
  jsTrim_eq_self_of fun b hb => hexDigit_not_ws (hexBytes_mem b hb)

theorem encodeChunk_shape (c r : List Nat) :
    encodeChunk c ++ r = hexBytes c.length ++ 13 :: 10 :: (c ++ 13 :: 10 :: r) := by
  simp [encodeChunk]

theorem encodeChunk_length (c : List Nat) :
    (encodeChunk c).length = (hexBytes c.length).length + c.length + 4 := by
  simp [encodeChunk]
  omega

theorem encodeChunk_eq (c : List Nat) :
    encodeChunk c = hexBytes c.length ++ 13 :: 10 :: (c ++ [13, 10]) := by
  simp [encodeChunk]

/-- The incremental chunked loop agrees with `specProcess` on every buffer
that is a front part of a canonical encoding, from any already-consumed
position `pre`. -/
theorem processLoop_spec : ∀ (cs : List (List Nat)) (b pre : List Nat)
    (emitted : List (List Nat)) (fuel : Nat), (∀ c ∈ cs, c ≠ []) →
    (∃ fut, b ++ fut = encList cs ++ zeroTerm) → b.length + 1 ≤ fuel →
    processChunkedLoop (pre ++ b) fuel (pre.length : Int) emitted =
      some (emitted ++ (specProcess cs b).1, (specProcess cs b).2) := by
  intro cs
  induction cs with
  | nil =>
    intro b pre emitted fuel hcs hpre hfuel
    obtain ⟨fut, hfut⟩ := hpre
    obtain ⟨f, rfl⟩ : ∃ f, fuel = f + 1 := ⟨fuel - 1, by omega⟩
    simp only [encList, List.map_nil, List.flatten_nil, List.nil_append, zeroTerm] at hfut
    rcases b with - | ⟨b0, - | ⟨b1, - | ⟨b2, brest⟩⟩⟩
    · rw [processLoop_stuck_noCRLF pre [] emitted f rfl]
      simp [specProcess]
    · simp at hfut
      obtain ⟨rfl, -⟩ := hfut
      rw [processLoop_stuck_noCRLF _ _ _ _ (by decide)]
      simp [specProcess]
    · simp at hfut
      obtain ⟨rfl, rfl, -⟩ := hfut
      rw [processLoop_stuck_noCRLF _ _ _ _ (by decide)]
      simp [specProcess]
    · simp at hfut
      obtain ⟨rfl, rfl, rfl, -⟩ := hfut
      rw [show (48 : Nat) :: 13 :: 10 :: brest = [48] ++ 13 :: 10 :: brest from rfl,
        processLoop_zero _ _ _ _ _ (by decide) (by decide)]
      simp [specProcess]
  | cons c cs' ih =>
    intro b pre emitted fuel hcs hpre hfuel
    obtain ⟨fut, hfut⟩ := hpre
    have hc : c ≠ [] := hcs c (by simp)
    have hcpos : 0 < c.length := List.length_pos.mpr hc
    obtain ⟨f, rfl⟩ : ∃ f, fuel = f + 1 := ⟨fuel - 1, by omega⟩
    rw [show encList (c :: cs') ++ zeroTerm = encodeChunk c ++ (encList cs' ++ zeroTerm) from
      by simp [encList]] at hfut
    by_cases hble : (encodeChunk c).length ≤ b.length
    · -- a complete chunk sits at the front of the buffer
      have htake : b = (encodeChunk c ++ (encList cs' ++ zeroTerm)).take b.length := by
        rw [← hfut, List.take_left]
      rw [show b.length = (encodeChunk c).length + (b.length - (encodeChunk c).length) from
        by omega, List.take_append] at htake
      set b' := (encList cs' ++ zeroTerm).take (b.length - (encodeChunk c).length) with hb'
      have hbfut : b' ++ fut = encList cs' ++ zeroTerm := by
        have hcc : encodeChunk c ++ (b' ++ fut) = encodeChunk c ++ (encList cs' ++ zeroTerm) := by
          rw [← List.append_assoc, ← htake, hfut]
        exact List.append_cancel_left hcc
      have hdata : pre ++ b = pre ++ (hexBytes c.length ++ 13 :: 10 :: (c ++ 13 :: 10 :: b')) := by
        rw [htake, encodeChunk_shape]
      rw [hdata, processLoop_step_sized pre (hexBytes c.length) c b' emitted f c.length
        findPair_hexBytes (by rw [jsTrim_hexBytes]; exact jsParseIntHex_hexBytes)
        (by omega) rfl]
      have hdata2 : pre ++ (hexBytes c.length ++ 13 :: 10 :: (c ++ 13 :: 10 :: b')) =
          (pre ++ encodeChunk c) ++ b' := by
        rw [← encodeChunk_shape]
        simp
      have hoff2 : (pre.length + (hexBytes c.length).length + 2 + c.length + 2 : Nat) =
          (pre ++ encodeChunk c).length := by
        rw [List.length_append, encodeChunk_length]
        omega
      rw [hdata2, hoff2, ih b' (pre ++ encodeChunk c) (emitted ++ [c]) f
        (fun x hx => hcs x (by simp [hx])) ⟨fut, hbfut⟩
        (by
          have h1 : b'.length ≤ b.length - (encodeChunk c).length := by
            rw [hb', List.length_take]
            omega
          have h2 : 1 ≤ (encodeChunk c).length := by rw [encodeChunk_length]; omega
          omega)]
      have hdropb : b.drop (encodeChunk c).length = b' := by
        rw [htake, List.drop_left]
      have hspec : specProcess (c :: cs') b =
          (c :: (specProcess cs' b').1, (specProcess cs' b').2) := by
        rw [specProcess, if_pos hble, hdropb]
      simp [hspec]
    · -- buffer ends inside this chunk: the loop is stuck and keeps everything
      have hbpre : b = (encodeChunk c).take b.length := by
        have h1 : b = (b ++ fut).take b.length := (List.take_left b fut).symm
        rw [hfut, List.take_append_of_le_length (by omega)] at h1
        exact h1
      have hspec : specProcess (c :: cs') b = ([], b) := by
        rw [specProcess, if_neg hble]
      rw [hspec]
      have henc : (encodeChunk c).length = (hexBytes c.length).length + c.length + 4 :=
        encodeChunk_length c
      set k := b.length with hk
      rcases Nat.lt_or_ge k ((hexBytes c.length).length + 1) with hr | hr
      · -- within the size line
        have hfp : findPair b = none := by
          rw [hbpre, encodeChunk_eq, List.take_append_of_le_length (by omega)]
          exact findPair_hexBytes_take
        rw [processLoop_stuck_noCRLF _ _ _ _ hfp]
        simp
      rcases Nat.lt_or_ge k ((hexBytes c.length).length + 2) with hr2 | hr2
      · -- size line plus the CR
        have hb2 : b = hexBytes c.length ++ [13] := by
          rw [hbpre, encodeChunk_eq, show k = (hexBytes c.length).length + 1 from by omega,
            List.take_append]
          simp
        have hfp : findPair b = none := by
          rw [hb2]
          exact findPair_append_cr fun x hx => hexDigit_ne_13 (hexBytes_mem x hx)
        rw [processLoop_stuck_noCRLF _ _ _ _ hfp]
        simp
      · -- header line complete, data region incomplete
        have hb2 : b = hexBytes c.length ++ 13 :: 10 ::
            ((c ++ [13, 10]).take (k - (hexBytes c.length).length - 2)) := by
          rw [hbpre, encodeChunk_eq, show k = (hexBytes c.length).length +
            (2 + (k - (hexBytes c.length).length - 2)) from by omega, List.take_append,
            show 2 + (k - (hexBytes c.length).length - 2) =
              (k - (hexBytes c.length).length - 2) + 1 + 1 from by omega,
            List.take_succ_cons, List.take_succ_cons,
            show (hexBytes c.length).length + (k - (hexBytes c.length).length - 2 + 1 + 1) -
              (hexBytes c.length).length - 2 = k - (hexBytes c.length).length - 2 from by omega]
        have hshort : ((c ++ [13, 10]).take (k - (hexBytes c.length).length - 2)).length <
            c.length + 2 := by
          rw [List.length_take]
          omega
        rw [hb2, processLoop_stuck_short pre (hexBytes c.length) _ emitted f c.length
          findPair_hexBytes (by rw [jsTrim_hexBytes]; exact jsParseIntHex_hexBytes)
          (by omega) hshort]
        rw [← hb2]
        simp

theorem processChunkedData_spec (cs : List (List Nat)) (b : List Nat)
    (hcs : ∀ c ∈ cs, c ≠ []) (hpre : ∃ fut, b ++ fut = encList cs ++ zeroTerm) :
    processChunkedData b = some (specProcess cs b) := by
  have h := processLoop_spec cs b [] [] (b.length + 1) hcs hpre (le_refl _)
  simpa [processChunkedData] using h

theorem specProcess_nil_stuck (cs : List (List Nat)) : specProcess cs [] = ([], []) := by
  cases cs with
  | nil => rw [specProcess, if_neg (by simp)]
  | cons c cs' =>
    rw [specProcess, if_neg (by simp [encodeChunk_length])]

theorem encList_append (cs₁ cs₂ : List (List Nat)) :
    encList (cs₁ ++ cs₂) = encList cs₁ ++ encList cs₂ := by
  simp [encList]

theorem specProcess_split : ∀ (cs : List (List Nat)) (b : List Nat), (∀ c ∈ cs, c ≠ []) →
    (∃ fut, b ++ fut = encList cs ++ zeroTerm) →
    ∃ cs₁ cs₂, cs = cs₁ ++ cs₂ ∧ (specProcess cs b).1 = cs₁ ∧
      ((b = encList cs₁ ++ (specProcess cs b).2 ∧
        specProcess cs₂ (specProcess cs b).2 = ([], (specProcess cs b).2)) ∨
       (cs₂ = [] ∧ (specProcess cs b).2 = [] ∧
        ∃ t, b = encList cs ++ 48 :: 13 :: 10 :: t)) := by
  intro cs
  induction cs with
  | nil =>
    intro b hcs hpre
    obtain ⟨fut, hfut⟩ := hpre
    simp only [encList, List.map_nil, List.flatten_nil, List.nil_append, zeroTerm] at hfut
    refine ⟨[], [], by simp, ?_, ?_⟩
    · by_cases h3 : 3 ≤ b.length
      · rw [specProcess, if_pos h3]
      · rw [specProcess, if_neg h3]
    · by_cases h3 : 3 ≤ b.length
      · right
        rw [specProcess, if_pos h3]
        refine ⟨rfl, rfl, ?_⟩
        rcases b with - | ⟨b0, - | ⟨b1, - | ⟨b2, brest⟩⟩⟩
        · simp at h3
        · simp at h3
        · simp at h3
        · simp at hfut
          obtain ⟨rfl, rfl, rfl, -⟩ := hfut
          exact ⟨brest, by simp [encList]⟩
      · left
        rw [specProcess, if_neg h3]
        exact ⟨by simp [encList], by rw [specProcess, if_neg h3]⟩
  | cons c cs' ih =>
    intro b hcs hpre
    obtain ⟨fut, hfut⟩ := hpre
    have hc : c ≠ [] := hcs c (by simp)
    rw [show encList (c :: cs') ++ zeroTerm = encodeChunk c ++ (encList cs' ++ zeroTerm) from
      by simp [encList]] at hfut
    by_cases hble : (encodeChunk c).length ≤ b.length
    · have htake : b = (encodeChunk c ++ (encList cs' ++ zeroTerm)).take b.length := by
        rw [← hfut, List.take_left]
      rw [show b.length = (encodeChunk c).length + (b.length - (encodeChunk c).length) from
        by omega, List.take_append] at htake
      set b' := (encList cs' ++ zeroTerm).take (b.length - (encodeChunk c).length) with hb'
      have hbfut : b' ++ fut = encList cs' ++ zeroTerm := by
        have hcc : encodeChunk c ++ (b' ++ fut) = encodeChunk c ++ (encList cs' ++ zeroTerm) := by
          rw [← List.append_assoc, ← htake, hfut]
        exact List.append_cancel_left hcc
      have hdropb : b.drop (encodeChunk c).length = b' := by
        rw [htake, List.drop_left]
      have hspec : specProcess (c :: cs') b =
          (c :: (specProcess cs' b').1, (specProcess cs' b').2) := by
        rw [specProcess, if_pos hble, hdropb]
      obtain ⟨cs₁', cs₂', hceq, hfst, hdisj⟩ :=
        ih b' (fun x hx => hcs x (by simp [hx])) ⟨fut, hbfut⟩
      refine ⟨c :: cs₁', cs₂', by simp [hceq], by rw [hspec]; simp [hfst], ?_⟩
      rcases hdisj with ⟨hdec, hstuck⟩ | ⟨hnil, hrem, t, hterm⟩
      · left
        constructor
        · rw [hspec]
          simp only [encList, List.map_cons, List.flatten_cons]
          rw [htake]
          conv_lhs => rw [hdec]
          simp [encList, List.append_assoc]
        · rw [hspec]
          exact hstuck
      · right
        refine ⟨hnil, by rw [hspec]; exact hrem, t, ?_⟩
        rw [htake, hterm, hceq, hnil]
        simp [encList]
    · refine ⟨[], c :: cs', by simp, ?_, ?_⟩
      · rw [specProcess, if_neg hble]
      · left
        rw [specProcess, if_neg hble]
        exact ⟨by simp [encList], by rw [specProcess, if_neg hble]⟩

theorem specProcess_full : ∀ (cs : List (List Nat)), (∀ c ∈ cs, c ≠ []) →
    specProcess cs (encList cs ++ zeroTerm) = (cs, []) := by
  intro cs
  induction cs with
  | nil =>
    intro hcs
    rw [specProcess, if_pos (by simp [encList, zeroTerm])]
  | cons c cs' ih =>
    intro hcs
    have hshape : encList (c :: cs') ++ zeroTerm =
        encodeChunk c ++ (encList cs' ++ zeroTerm) := by
      simp [encList]
    rw [hshape, specProcess, if_pos (by simp), List.drop_left,
      ih fun x hx => hcs x (by simp [hx])]

theorem mid_of_crlf : ∀ {t u F : List Nat}, t ++ (u ++ F) = [13, 10] →
    u = [] ∨ u = [13] ∨ u = [10] ∨ u = [13, 10] := by
  intro t u F h
  have hlen : t.length + (u.length + F.length) = 2 := by
    have := congrArg List.length h
    simpa using this
  rcases u with - | ⟨x, - | ⟨y, - | ⟨z, u'⟩⟩⟩
  · left; rfl
  · right
    rcases t with - | ⟨a, - | ⟨b, t'⟩⟩
    · simp at h
      left
      simp [h.1]
    · simp at h
      right; left
      simp [h.2.1]
    · exfalso; simp at hlen; omega
  · right; right; right
    rcases t with - | ⟨a, t'⟩
    · simp at h
      simp [h.1, h.2.1]
    · exfalso; simp at hlen; omega
  · exfalso
    simp at hlen
    omega

theorem feedChunks_after_term : ∀ (pieces : List (List Nat)) (emitted : List (List Nat))
    (rem : List Nat), (∃ t, t ++ (rem ++ pieces.flatten) = [13, 10]) →
    ∃ rem', feedChunks pieces emitted rem = some (emitted, rem') := by
  intro pieces
  induction pieces with
  | nil => exact fun emitted rem _ => ⟨rem, rfl⟩
  | cons p ps ih =>
    intro emitted rem h
    obtain ⟨t, ht⟩ := h
    have ht' : t ++ ((rem ++ p) ++ ps.flatten) = [13, 10] := by
      rw [List.append_assoc, ← List.flatten_cons]
      exact ht
    rcases mid_of_crlf ht' with hu | hu | hu | hu
    · rw [feedChunks, hu, show processChunkedData [] = some ([], []) from rfl]
      simpa using ih emitted [] ⟨t, by simpa [hu] using ht'⟩
    · rw [feedChunks, hu, show processChunkedData [13] = some ([], [13]) from by decide]
      simpa using ih emitted [13] ⟨t, by simpa [hu] using ht'⟩
    · rw [feedChunks, hu, show processChunkedData [10] = some ([], [10]) from by decide]
      simpa using ih emitted [10] ⟨t, by simpa [hu] using ht'⟩
    · rw [feedChunks, hu, show processChunkedData [13, 10] = some ([], []) from by decide]
      have h2 := congrArg List.length ht'
      rw [hu] at h2
      simp at h2
      have hF : ps.flatten = [] := List.eq_nil_of_length_eq_zero (by simp; omega)
      simpa using ih emitted [] ⟨[13, 10], by simp [hF]⟩

theorem feedChunks_inv : ∀ (pieces cs₂ emitted : List (List Nat)) (rem : List Nat),
    (∀ c ∈ cs₂, c ≠ []) → rem ++ pieces.flatten = encList cs₂ ++ zeroTerm →
    specProcess cs₂ rem = ([], rem) →
    ∃ outs rem', feedChunks pieces emitted rem = some (outs, rem') ∧
      outs.flatten = emitted.flatten ++ cs₂.flatten := by
  intro pieces
  induction pieces with
  | nil =>
    intro cs₂ emitted rem hcs hfull hstuck
    exfalso
    simp at hfull
    cases cs₂ with
    | nil =>
      rw [specProcess, if_pos (by rw [hfull]; simp [encList, zeroTerm])] at hstuck
      have : rem = [] := (Prod.mk.injEq _ _ _ _ |>.mp hstuck.symm).2
      rw [this] at hfull
      simp [encList, zeroTerm] at hfull
    | cons c cs' =>
      have hlen : (encodeChunk c).length ≤ rem.length := by
        rw [hfull]
        simp [encList]
      rw [specProcess, if_pos hlen] at hstuck
      have := (Prod.mk.injEq _ _ _ _ |>.mp hstuck).1
      simp at this
  | cons p ps ih =>
    intro cs₂ emitted rem hcs hfull hstuck
    have hufut : (rem ++ p) ++ ps.flatten = encList cs₂ ++ zeroTerm := by
      rw [List.append_assoc, ← List.flatten_cons]
      exact hfull
    have hchar := processChunkedData_spec cs₂ (rem ++ p) hcs ⟨ps.flatten, hufut⟩
    obtain ⟨cs₂₁, cs₂₂, hcseq, hfst, hdisj⟩ :=
      specProcess_split cs₂ (rem ++ p) hcs ⟨ps.flatten, hufut⟩
    obtain ⟨os, r, hosr⟩ : ∃ os r, specProcess cs₂ (rem ++ p) = (os, r) := ⟨_, _, rfl⟩
    rw [hosr] at hchar hfst hdisj
    simp only at hfst hdisj
    rw [feedChunks, hchar]
    rcases hdisj with ⟨hbdec, hstuck'⟩ | ⟨hnil, hrem, t, hterm⟩
    · have hfull' : r ++ ps.flatten = encList cs₂₂ ++ zeroTerm := by
        have hcc : encList cs₂₁ ++ (r ++ ps.flatten) =
            encList cs₂₁ ++ (encList cs₂₂ ++ zeroTerm) := by
          rw [← List.append_assoc, ← hbdec, hufut, hcseq, encList_append, List.append_assoc]
        exact List.append_cancel_left hcc
      obtain ⟨outs, rem', hfeed, hflat⟩ := ih cs₂₂ (emitted ++ os) r
        (fun x hx => hcs x (by simp [hcseq, hx])) hfull' hstuck'
      refine ⟨outs, rem', hfeed, ?_⟩
      rw [hflat, hcseq, hfst]
      simp
    · have hsuffix : ∃ t', t' ++ (r ++ ps.flatten) = [13, 10] := by
        refine ⟨t, ?_⟩
        rw [hrem]
        simp only [List.nil_append]
        have : encList cs₂ ++ (48 :: 13 :: 10 :: t) ++ ps.flatten =
            encList cs₂ ++ (48 :: 13 :: 10 :: (t ++ ps.flatten)) := by simp
        have h2 : encList cs₂ ++ (48 :: 13 :: 10 :: (t ++ ps.flatten)) =
            encList cs₂ ++ (48 :: 13 :: 10 :: [13, 10]) := by
          rw [← this, ← hterm]
          simpa [zeroTerm] using hufut
        have h3 := List.append_cancel_left h2
        simpa using h3
      obtain ⟨rem', hfeed⟩ := feedChunks_after_term ps (emitted ++ os) r hsuffix
      refine ⟨emitted ++ os, rem', hfeed, ?_⟩
      rw [hfst, hcseq, hnil]
      simp

/-! ## Step lemmas for the one-shot chunked loop -/

theorem decodeLoop_error (pre sz rest : List Nat) (acc : List Nat) (fuel : Nat)
    (hsz : findPair sz = none) (hparse : jsParseIntHex sz = none) :
    decodeChunkedLoop (pre ++ (sz ++ 13 :: 10 :: rest)) (fuel + 1) (pre.length : Int) acc =
      some (.error (.invalidChunkSize sz)) := by
  have hlen : (pre ++ (sz ++ 13 :: 10 :: rest)).length =
      pre.length + sz.length + 2 + rest.length := by
    simp
    omega
  have hguard : (pre.length : Int) < ((pre ++ (sz ++ 13 :: 10 :: rest)).length : Int) := by
    rw [hlen]; push_cast; omega
  have hfind : findCRLFfrom (pre ++ (sz ++ 13 :: 10 :: rest)) (pre.length : Int) =
      some (sz.length + pre.length) := by
    rw [findCRLFfrom_extract, findPair_append_crlf _ hsz]
    rfl
  have hsizeline : jsSubarray (pre ++ (sz ++ 13 :: 10 :: rest)) (pre.length : Int)
      ((sz.length + pre.length : Nat) : Int) = sz := by
    rw [Nat.add_comm sz.length pre.length, ← List.append_assoc]
    exact jsSubarray_extract pre sz _
  rw [decodeChunkedLoop, if_pos hguard, hfind]
  simp only [hsizeline, hparse]

theorem decodeLoop_zero (pre sz rest : List Nat) (acc : List Nat) (fuel : Nat)
    (hsz : findPair sz = none) (hparse : jsParseIntHex sz = some 0) :
    decodeChunkedLoop (pre ++ (sz ++ 13 :: 10 :: rest)) (fuel + 1) (pre.length : Int) acc =
      some (.ok acc) := by
  have hlen : (pre ++ (sz ++ 13 :: 10 :: rest)).length =
      pre.length + sz.length + 2 + rest.length := by
    simp
    omega
  have hguard : (pre.length : Int) < ((pre ++ (sz ++ 13 :: 10 :: rest)).length : Int) := by
    rw [hlen]; push_cast; omega
  have hfind : findCRLFfrom (pre ++ (sz ++ 13 :: 10 :: rest)) (pre.length : Int) =
      some (sz.length + pre.length) := by
    rw [findCRLFfrom_extract, findPair_append_crlf _ hsz]
    rfl
  have hsizeline : jsSubarray (pre ++ (sz ++ 13 :: 10 :: rest)) (pre.length : Int)
      ((sz.length + pre.length : Nat) : Int) = sz := by
    rw [Nat.add_comm sz.length pre.length, ← List.append_assoc]
    exact jsSubarray_extract pre sz _
  rw [decodeChunkedLoop, if_pos hguard, hfind]
  simp only [hsizeline, hparse]
  simp

theorem decodeLoop_trunc (pre sz d : List Nat) (acc : List Nat) (fuel : Nat) (n : Nat)
    (hsz : findPair sz = none) (hparse : jsParseIntHex sz = some (n : Int)) (hn : n ≠ 0)
    (hshort : d.length < n) :
    decodeChunkedLoop (pre ++ (sz ++ 13 :: 10 :: d)) (fuel + 1) (pre.length : Int) acc =
      some (.ok (acc ++ d)) := by
  have hlen : (pre ++ (sz ++ 13 :: 10 :: d)).length =
      pre.length + sz.length + 2 + d.length := by
    simp
    omega
  have hguard : (pre.length : Int) < ((pre ++ (sz ++ 13 :: 10 :: d)).length : Int) := by
    rw [hlen]; push_cast; omega
  have hfind : findCRLFfrom (pre ++ (sz ++ 13 :: 10 :: d)) (pre.length : Int) =
      some (sz.length + pre.length) := by
    rw [findCRLFfrom_extract, findPair_append_crlf _ hsz]
    rfl
  have hsizeline : jsSubarray (pre ++ (sz ++ 13 :: 10 :: d)) (pre.length : Int)
      ((sz.length + pre.length : Nat) : Int) = sz := by
    rw [Nat.add_comm sz.length pre.length, ← List.append_assoc]
    exact jsSubarray_extract pre sz _
  have htail : jsSubarrayFrom (pre ++ (sz ++ 13 :: 10 :: d))
      (((sz.length + pre.length : Nat) : Int) + 2) = d := by
    have hshape : pre ++ (sz ++ 13 :: 10 :: d) = (pre ++ sz ++ [13, 10]) ++ d := by
      simp
    have hcast : (((sz.length + pre.length : Nat) : Int) + 2) =
        (((pre ++ sz ++ [13, 10]).length : Nat) : Int) := by
      simp
      push_cast
      omega
    rw [hshape, hcast, jsSubarrayFrom_nat, List.drop_left]
  rw [decodeChunkedLoop, if_pos hguard, hfind]
  simp only [hsizeline, hparse]
  rw [if_neg (by exact_mod_cast hn)]
  rw [if_pos (by rw [hlen]; push_cast; omega)]
  rw [htail]

theorem decodeLoop_step_sized (pre sz c rest : List Nat) (acc : List Nat) (fuel : Nat)
    (n : Nat) (hsz : findPair sz = none) (hparse : jsParseIntHex sz = some (n : Int))
    (hn : n ≠ 0) (hc : c.length = n) :
    decodeChunkedLoop (pre ++ (sz ++ 13 :: 10 :: (c ++ 13 :: 10 :: rest))) (fuel + 1)
      (pre.length : Int) acc =
    decodeChunkedLoop (pre ++ (sz ++ 13 :: 10 :: (c ++ 13 :: 10 :: rest))) fuel
      ((pre.length + sz.length + 2 + n + 2 : Nat) : Int) (acc ++ c) := by
  have hlen : (pre ++ (sz ++ 13 :: 10 :: (c ++ 13 :: 10 :: rest))).length =
      pre.length + sz.length + 2 + c.length + 2 + rest.length := by
    simp
    omega
  have hguard : (pre.length : Int) <
      ((pre ++ (sz ++ 13 :: 10 :: (c ++ 13 :: 10 :: rest))).length : Int) := by
    rw [hlen]; push_cast; omega
  have hfind : findCRLFfrom (pre ++ (sz ++ 13 :: 10 :: (c ++ 13 :: 10 :: rest)))
      (pre.length : Int) = some (sz.length + pre.length) := by
    rw [findCRLFfrom_extract, findPair_append_crlf _ hsz]
    rfl
  have hsizeline : jsSubarray (pre ++ (sz ++ 13 :: 10 :: (c ++ 13 :: 10 :: rest)))
      (pre.length : Int) ((sz.length + pre.length : Nat) : Int) = sz := by
    rw [Nat.add_comm sz.length pre.length, ← List.append_assoc]
    exact jsSubarray_extract pre sz _
  have hpayload : jsSubarray (pre ++ (sz ++ 13 :: 10 :: (c ++ 13 :: 10 :: rest)))
      (((sz.length + pre.length : Nat) : Int) + 2)
      (((sz.length + pre.length : Nat) : Int) + 2 + (n : Int)) = c := by
    have hshape : pre ++ (sz ++ 13 :: 10 :: (c ++ 13 :: 10 :: rest)) =
        (pre ++ sz ++ [13, 10]) ++ c ++ (13 :: 10 :: rest) := by
      simp
    rw [hshape]
    have h2 : (((sz.length + pre.length : Nat) : Int) + 2 + (n : Int)) =
        (((pre ++ sz ++ [13, 10]).length + c.length : Nat) : Int) := by
      simp [hc]
      push_cast
      omega
    have h1 : (((sz.length + pre.length : Nat) : Int) + 2) =
        (((pre ++ sz ++ [13, 10]).length : Nat) : Int) := by
      simp
      push_cast
      omega
    rw [h2, h1]
    exact jsSubarray_extract _ c _
  rw [decodeChunkedLoop, if_pos hguard, hfind]
  simp only [hsizeline, hparse]
  rw [if_neg (by exact_mod_cast hn)]
  rw [if_neg (by rw [hlen]; push_cast; omega)]
  rw [hpayload]
  have hoff : (((sz.length + pre.length : Nat) : Int) + 2 + (n : Int) + 2) =
      ((pre.length + sz.length + 2 + n + 2 : Nat) : Int) := by
    push_cast
    ring
  rw [hoff]

theorem encList_length_ge (cs : List (List Nat)) : cs.length ≤ (encList cs).length := by
  induction cs with
  | nil => simp [encList]
  | cons c cs' ih =>
    have h1 : 1 ≤ (encodeChunk c).length := by rw [encodeChunk_length]; omega
    simp [encList] at ih ⊢
    omega

/-- The one-shot decoder consumes a canonical encoding completely, from any
already-consumed position `pre`. -/
theorem decodeLoop_encode : ∀ (cs : List (List Nat)) (pre acc : List Nat) (fuel : Nat),
    (∀ c ∈ cs, c ≠ []) → cs.length + 1 ≤ fuel →
    decodeChunkedLoop (pre ++ encodeChunked cs) fuel (pre.length : Int) acc =
      some (.ok (acc ++ cs.flatten)) := by
  intro cs
  induction cs with
  | nil =>
    intro pre acc fuel hcs hfuel
    obtain ⟨f, rfl⟩ : ∃ f, fuel = f + 1 := ⟨fuel - 1, by omega⟩
    rw [show encodeChunked [] = [48] ++ 13 :: 10 :: [13, 10] from by
      simp [encodeChunked, encList, zeroTerm]]
    rw [decodeLoop_zero pre [48] [13, 10] acc f (by decide) (by decide)]
    simp
  | cons c cs' ih =>
    intro pre acc fuel hcs hfuel
    obtain ⟨f, rfl⟩ : ∃ f, fuel = f + 1 := ⟨fuel - 1, by omega⟩
    have hc : c ≠ [] := hcs c (by simp)
    have hcpos : 0 < c.length := List.length_pos.mpr hc
    have hshape : encodeChunked (c :: cs') =
        hexBytes c.length ++ 13 :: 10 :: (c ++ 13 :: 10 :: encodeChunked cs') := by
      rw [show encodeChunked (c :: cs') = encodeChunk c ++ encodeChunked cs' from by
        simp [encodeChunked, encList], encodeChunk_shape]
    rw [hshape, decodeLoop_step_sized pre (hexBytes c.length) c (encodeChunked cs') acc f
      c.length findPair_hexBytes jsParseIntHex_hexBytes (by omega) rfl]
    have hdata2 : pre ++ (hexBytes c.length ++ 13 :: 10 :: (c ++ 13 :: 10 :: encodeChunked cs')) =
        (pre ++ encodeChunk c) ++ encodeChunked cs' := by
      rw [← encodeChunk_shape]
      simp
    have hoff2 : (pre.length + (hexBytes c.length).length + 2 + c.length + 2 : Nat) =
        (pre ++ encodeChunk c).length := by
      rw [List.length_append, encodeChunk_length]
      omega
    rw [hdata2, hoff2, ih (pre ++ encodeChunk c) (acc ++ c) f
      (fun x hx => hcs x (by simp [hx])) (by simp at hfuel ⊢; omega)]
    simp

/-- C1: for every list of nonempty chunk payloads, the one-shot decoder
applied to the whole chunked encoding of `[c1, ..., cn, 0]` returns their
concatenation, and feeding the same encoded bytes to the incremental decoder
split at arbitrary byte boundaries (carrying the returned remainder between
calls) emits, in order, payloads whose concatenation is the same. -/
theorem chunked_split_invariance (cs : List (List Nat)) (hcs : ∀ c ∈ cs, c ≠ []) :
    decodeChunkedBytes (encodeChunked cs) = some (.ok cs.flatten) ∧
    ∀ pieces : List (List Nat), pieces.flatten = encodeChunked cs →
      ∃ outs rem, feedChunks pieces [] [] = some (outs, rem) ∧
        outs.flatten = cs.flatten := by
  constructor
  · have hfuel : cs.length + 1 ≤ (encodeChunked cs).length + 1 := by
      have h1 := encList_length_ge cs
      have h2 : (encodeChunked cs).length = (encList cs).length + 5 := by
        simp [encodeChunked, zeroTerm]
      omega
    have h := decodeLoop_encode cs [] [] ((encodeChunked cs).length + 1) hcs hfuel
    simpa [decodeChunkedBytes] using h
  · intro pieces hp
    obtain ⟨outs, rem, hfeed, hflat⟩ := feedChunks_inv pieces cs [] []
      hcs (by simp [hp, encodeChunked]) (specProcess_nil_stuck cs)
    exact ⟨outs, rem, hfeed, by simpa using hflat⟩

/-- Witness for C1 at the chunk list `[[97], [98, 99, 100]]` with the
encoding split into five uneven pieces. -/
theorem chunked_split_invariance_witness :
    decodeChunkedBytes (encodeChunked [[97], [98, 99, 100]]) =
      some (.ok [97, 98, 99, 100]) ∧
    ∃ outs rem,
      feedChunks [[49, 13], [10, 97, 13, 10, 51], [13, 10, 98, 99], [100, 13, 10, 48, 13],
        [10, 13, 10]] [] [] = some (outs, rem) ∧
      outs.flatten = [97, 98, 99, 100] := by
  have hx1 : hexBytes 1 = [49] := by
    rw [hexBytes, if_neg (by omega), hexBytesAux, dif_neg (by omega), hexBytesAux,
      dif_pos (by norm_num)]
    decide
  have hx3 : hexBytes 3 = [51] := by
    rw [hexBytes, if_neg (by omega), hexBytesAux, dif_neg (by omega), hexBytesAux,
      dif_pos (by norm_num)]
    decide
  have h := chunked_split_invariance [[97], [98, 99, 100]] (by decide)
  refine ⟨h.1, h.2 _ ?_⟩
  simp [encodeChunked, encList, encodeChunk, zeroTerm, hx1, hx3]

/-- C7: an unparsable chunk-size line is fatal in the one-shot decoder; a
truncated final chunk is tolerated there by taking the remaining bytes; in
the incremental decoder an unparsable size line is non-fatal — the loop
skips past that line's CRLF terminator and continues, recovering all
subsequent well-formed chunks. -/
theorem chunk_size_error_asymmetry :
    (∀ bad rest : List Nat, findPair bad = none → jsParseIntHex bad = none →
      decodeChunkedBytes (bad ++ 13 :: 10 :: rest) =
        some (.error (.invalidChunkSize bad))) ∧
    (∀ (n : Nat) (d : List Nat), 0 < n → d.length < n →
      decodeChunkedBytes (hexBytes n ++ 13 :: 10 :: d) = some (.ok d)) ∧
    (∀ (bad rest : List Nat) (fuel : Nat) (emitted : List (List Nat)),
      findPair bad = none → jsParseIntHex (jsTrim bad) = none →
      processChunkedLoop (bad ++ 13 :: 10 :: rest) (fuel + 1) 0 emitted =
        processChunkedLoop (bad ++ 13 :: 10 :: rest) fuel
          ((bad.length + 2 : Nat) : Int) emitted) ∧
    (∀ (bad : List Nat) (cs : List (List Nat)), findPair bad = none →
      jsParseIntHex (jsTrim bad) = none → (∀ c ∈ cs, c ≠ []) →
      processChunkedData (bad ++ 13 :: 10 :: encodeChunked cs) = some (cs, [])) := by
  refine ⟨?_, ?_, ?_, ?_⟩
  · intro bad rest hfp hparse
    have h := decodeLoop_error [] bad rest [] (bad ++ 13 :: 10 :: rest).length hfp hparse
    simpa [decodeChunkedBytes] using h
  · intro n d hn hshort
    have h := decodeLoop_trunc [] (hexBytes n) d [] (hexBytes n ++ 13 :: 10 :: d).length n
      findPair_hexBytes jsParseIntHex_hexBytes (by omega) hshort
    simpa [decodeChunkedBytes] using h
  · intro bad rest fuel emitted hfp hparse
    have h := processLoop_skip [] bad rest emitted fuel hfp hparse
    simpa using h
  · intro bad cs hfp hparse hcs
    rw [processChunkedData]
    have hskip := processLoop_skip [] bad (encodeChunked cs) []
      (bad ++ 13 :: 10 :: encodeChunked cs).length hfp hparse
    simp only [List.nil_append, List.length_nil, Nat.cast_zero] at hskip
    rw [hskip]
    have hshape : bad ++ 13 :: 10 :: encodeChunked cs =
        (bad ++ [13, 10]) ++ encodeChunked cs := by
      simp
    have hoff : ((0 + bad.length + 2 : Nat) : Int) =
        (((bad ++ [13, 10]).length : Nat) : Int) := by
      simp
    rw [hshape, hoff]
    have hfuel : (encodeChunked cs).length + 1 ≤
        ((bad ++ [13, 10]) ++ encodeChunked cs).length := by
      simp
      omega
    have hspec := processLoop_spec cs (encodeChunked cs) (bad ++ [13, 10]) []
      ((bad ++ [13, 10]) ++ encodeChunked cs).length hcs
      ⟨[], by simp [encodeChunked]⟩ hfuel
    rw [hspec, show specProcess cs (encodeChunked cs) = (cs, []) from by
      simpa [encodeChunked] using specProcess_full cs hcs]
    simp

/-- Witness for C7 with the unparsable size line `zz` and a truncated
4-byte chunk. -/
theorem chunk_size_error_asymmetry_witness :
    decodeChunkedBytes ([122, 122] ++ 13 :: 10 :: [97]) =
      some (.error (.invalidChunkSize [122, 122])) ∧
    decodeChunkedBytes (hexBytes 4 ++ 13 :: 10 :: [97, 98]) = some (.ok [97, 98]) ∧
    processChunkedLoop ([122, 122] ++ 13 :: 10 :: []) (5 + 1) 0 [] =
      processChunkedLoop ([122, 122] ++ 13 :: 10 :: []) 5
        ((([122, 122] : List Nat).length + 2 : Nat) : Int) [] ∧
    processChunkedData ([122, 122] ++ 13 :: 10 :: encodeChunked [[97]]) =
      some ([[97]], []) := by
  refine ⟨?_, ?_, ?_, ?_⟩
  · exact chunk_size_error_asymmetry.1 [122, 122] [97] (by decide) (by decide)
  · exact chunk_size_error_asymmetry.2.1 4 [97, 98] (by decide) (by decide)
  · exact chunk_size_error_asymmetry.2.2.1 [122, 122] [] 5 [] (by decide) (by decide)
  · exact chunk_size_error_asymmetry.2.2.2 [122, 122] [[97]] (by decide) (by decide)
      (by decide)

/-! ## Step lemmas for the multiplexed log-frame loop -/

theorem jsGet_append (P X : List Nat) (k : Nat) :
    jsGet (P ++ X) ((P.length + k : Nat) : Int) = X.getD k 0 := by
  unfold jsGet
  rw [if_neg (by omega)]
  have ht : ((P.length + k : Nat) : Int).toNat = P.length + k := by omega
  rw [ht, List.getD_eq_getElem?_getD, List.getD_eq_getElem?_getD,
    List.getElem?_append_right (by omega)]
  simp

theorem encodeFrame_length (f : Frame) :
    (encodeFrame f).length = 8 + f.payload.length := by
  simp [encodeFrame, be4]
  omega

theorem readBE4_extract (P Q : List Nat) (n : Nat) (hn : n ≤ 1000000) :
    readBE4 (P ++ (be4 n ++ Q)) (P.length : Int) = (n : Int) := by
  unfold readBE4
  have h0 : (P.length : Int) = ((P.length + 0 : Nat) : Int) := by push_cast; ring
  have h1 : (P.length : Int) + 1 = ((P.length + 1 : Nat) : Int) := by push_cast; ring
  have h2 : (P.length : Int) + 2 = ((P.length + 2 : Nat) : Int) := by push_cast; ring
  have h3 : (P.length : Int) + 3 = ((P.length + 3 : Nat) : Int) := by push_cast; ring
  rw [h3, h2, h1, h0, jsGet_append, jsGet_append, jsGet_append, jsGet_append]
  have g0 : (be4 n ++ Q).getD 0 0 = n / 16777216 % 256 := by simp [be4]
  have g1 : (be4 n ++ Q).getD 1 0 = n / 65536 % 256 := by simp [be4]
  have g2 : (be4 n ++ Q).getD 2 0 = n / 256 % 256 := by simp [be4]
  have g3 : (be4 n ++ Q).getD 3 0 = n % 256 := by simp [be4]
  rw [g0, g1, g2, g3]
  have hu : n / 16777216 % 256 % 256 * 16777216 + n / 65536 % 256 % 256 * 65536 +
      n / 256 % 256 % 256 * 256 + n % 256 % 256 = n := by omega
  rw [hu]
  unfold toSigned32
  rw [if_pos (by omega)]

theorem muxLoop_step (pre : List Nat) (f : Frame) (rest : List Nat)
    (lines : List (List Nat × StreamTag)) (fuel : Nat)
    (hsize : f.payload.length ≤ 1000000)
    (hline : ¬(rstripBytes f.payload).isEmpty = true) :
    muxLoop (pre ++ (encodeFrame f ++ rest)) (fuel + 1) (pre.length : Int) lines =
    muxLoop (pre ++ (encodeFrame f ++ rest)) fuel
      ((pre.length + (encodeFrame f).length : Nat) : Int) (lines ++ [frameLine f]) := by
  have hlen : (pre ++ (encodeFrame f ++ rest)).length =
      pre.length + 8 + f.payload.length + rest.length := by
    simp [encodeFrame, be4]
    omega
  have hguard : (pre.length : Int) < ((pre ++ (encodeFrame f ++ rest)).length : Int) := by
    rw [hlen]; push_cast; omega
  have hcond8 : ¬((pre.length : Int) + 8 > ((pre ++ (encodeFrame f ++ rest)).length : Int)) := by
    rw [hlen]; push_cast; omega
  have htype : jsGet (pre ++ (encodeFrame f ++ rest)) (pre.length : Int) = f.typ := by
    rw [show (pre.length : Int) = ((pre.length + 0 : Nat) : Int) from by push_cast; ring,
      jsGet_append]
    simp [encodeFrame]
  have hbe : readBE4 (pre ++ (encodeFrame f ++ rest)) ((pre.length : Int) + 4) =
      (f.payload.length : Int) := by
    have hshape : pre ++ (encodeFrame f ++ rest) =
        (pre ++ [f.typ, 0, 0, 0]) ++ (be4 f.payload.length ++ (f.payload ++ rest)) := by
      simp [encodeFrame]
    have hidx : (pre.length : Int) + 4 = (((pre ++ [f.typ, 0, 0, 0]).length : Nat) : Int) := by
      simp <;> push_cast <;> omega
    rw [hshape, hidx, readBE4_extract _ _ _ hsize]
  have hpay : jsSubarray (pre ++ (encodeFrame f ++ rest)) ((pre.length : Int) + 8)
      ((pre.length : Int) + 8 + (f.payload.length : Int)) = f.payload := by
    have hshape : pre ++ (encodeFrame f ++ rest) =
        (pre ++ ([f.typ, 0, 0, 0] ++ be4 f.payload.length)) ++ f.payload ++ rest := by
      simp [encodeFrame]
    have hP : (pre ++ ([f.typ, 0, 0, 0] ++ be4 f.payload.length)).length =
        pre.length + 8 := by
      simp [be4]
    have h1 : (pre.length : Int) + 8 + (f.payload.length : Int) =
        (((pre ++ ([f.typ, 0, 0, 0] ++ be4 f.payload.length)).length +
          f.payload.length : Nat) : Int) := by
      rw [hP]
      push_cast
      ring
    have h2 : (pre.length : Int) + 8 =
        (((pre ++ ([f.typ, 0, 0, 0] ++ be4 f.payload.length)).length : Nat) : Int) := by
      rw [hP]
      push_cast
      ring
    rw [hshape, h1, h2]
    exact jsSubarray_extract _ f.payload _
  simp only [muxLoop]
  rw [if_pos hguard, if_neg hcond8, htype, hbe]
  rw [if_neg (by push_cast; omega)]
  rw [if_neg (by rw [hlen]; push_cast; omega)]
  rw [hpay, if_neg hline]
  have hoff : (pre.length : Int) + 8 + (f.payload.length : Int) =
      ((pre.length + (encodeFrame f).length : Nat) : Int) := by
    rw [encodeFrame_length]
    push_cast
    ring
  rw [hoff]
  rfl

theorem muxLoop_stuck (pre : List Nat) (pf : Frame) (k : Nat)
    (lines : List (List Nat × StreamTag)) (fuel : Nat)
    (hk : k < (encodeFrame pf).length) (hsize : pf.payload.length ≤ 1000000) :
    muxLoop (pre ++ (encodeFrame pf).take k) (fuel + 1) (pre.length : Int) lines =
      some (lines, (encodeFrame pf).take k) := by
  have htklen : ((encodeFrame pf).take k).length = k := by
    rw [List.length_take]
    omega
  have hlen : (pre ++ (encodeFrame pf).take k).length = pre.length + k := by
    rw [List.length_append, htklen]
  rcases Nat.lt_or_ge k 8 with h8 | h8
  · -- fewer than 8 bytes of header
    rcases Nat.eq_zero_or_pos k with rfl | hkpos
    · simp only [muxLoop]
      rw [if_neg (by rw [hlen]; push_cast; omega), jsSubarrayFrom_nat, List.drop_left]
    · simp only [muxLoop]
      rw [if_pos (by rw [hlen]; push_cast; omega),
        if_pos (by rw [hlen]; push_cast; omega), jsSubarrayFrom_nat, List.drop_left]
  · -- full header present, payload incomplete
    have hdec : (encodeFrame pf).take k =
        [pf.typ, 0, 0, 0] ++ (be4 pf.payload.length ++ pf.payload.take (k - 8)) := by
      have hshape : encodeFrame pf =
          ([pf.typ, 0, 0, 0] ++ be4 pf.payload.length) ++ pf.payload := by
        simp [encodeFrame]
      rw [hshape, show k = ([pf.typ, 0, 0, 0] ++ be4 pf.payload.length).length + (k - 8) from
        by simp [be4]; omega, List.take_append]
      simp [be4] <;> omega
    have hbe : readBE4 (pre ++ (encodeFrame pf).take k) ((pre.length : Int) + 4) =
        (pf.payload.length : Int) := by
      have hshape2 : pre ++ (encodeFrame pf).take k =
          (pre ++ [pf.typ, 0, 0, 0]) ++ (be4 pf.payload.length ++ pf.payload.take (k - 8)) := by
        rw [hdec]
        simp
      have hidx : (pre.length : Int) + 4 =
          (((pre ++ [pf.typ, 0, 0, 0]).length : Nat) : Int) := by
        simp <;> push_cast <;> omega
      rw [hshape2, hidx, readBE4_extract _ _ _ hsize]
    have hkenc : k < 8 + pf.payload.length := by
      rw [encodeFrame_length] at hk
      omega
    simp only [muxLoop]
    rw [if_pos (by rw [hlen]; push_cast; omega), if_neg (by rw [hlen]; push_cast; omega), hbe]
    rw [if_neg (by push_cast; omega)]
    rw [if_pos (by rw [hlen]; push_cast; omega), jsSubarrayFrom_nat, List.drop_left]

theorem encFrames_length_ge (fs : List Frame) : fs.length ≤ (encFrames fs).length := by
  induction fs with
  | nil => simp [encFrames]
  | cons f fs' ih =>
    have h1 : 1 ≤ (encodeFrame f).length := by rw [encodeFrame_length]; omega
    simp [encFrames] at ih ⊢
    omega

/-- Iterating the multiplexed loop over complete good frames followed by a
front part of one more frame. -/
theorem muxLoop_frames : ∀ (fs : List Frame) (pre : List Nat) (pf : Frame) (k : Nat)
    (lines : List (List Nat × StreamTag)) (fuel : Nat),
    (∀ f ∈ fs, GoodFrame f) → pf.payload.length ≤ 1000000 →
    k < (encodeFrame pf).length → fs.length + 1 ≤ fuel →
    muxLoop (pre ++ (encFrames fs ++ (encodeFrame pf).take k)) fuel (pre.length : Int) lines =
      some (lines ++ fs.map frameLine, (encodeFrame pf).take k) := by
  intro fs
  induction fs with
  | nil =>
    intro pre pf k lines fuel hgood hpf hk hfuel
    obtain ⟨f', rfl⟩ : ∃ f', fuel = f' + 1 := ⟨fuel - 1, by omega⟩
    rw [show encFrames [] ++ (encodeFrame pf).take k = (encodeFrame pf).take k from by
      simp [encFrames]]
    rw [muxLoop_stuck pre pf k lines f' hk hpf]
    simp
  | cons f fs' ih =>
    intro pre pf k lines fuel hgood hpf hk hfuel
    obtain ⟨f', rfl⟩ : ∃ f', fuel = f' + 1 := ⟨fuel - 1, by omega⟩
    have hgf : GoodFrame f := hgood f (by simp)
    have hfuel' : fs'.length + 1 ≤ f' := by
      simp at hfuel
      omega
    have hshape : encFrames (f :: fs') ++ (encodeFrame pf).take k =
        encodeFrame f ++ (encFrames fs' ++ (encodeFrame pf).take k) := by
      simp [encFrames]
    rw [hshape, muxLoop_step pre f _ lines f' hgf.2.1 hgf.2.2.1]
    have hdata2 : pre ++ (encodeFrame f ++ (encFrames fs' ++ (encodeFrame pf).take k)) =
        (pre ++ encodeFrame f) ++ (encFrames fs' ++ (encodeFrame pf).take k) := by
      simp
    have hoff2 : (pre.length + (encodeFrame f).length : Nat) =
        ((pre ++ encodeFrame f).length : Nat) := by
      simp
    rw [hdata2, hoff2, ih (pre ++ encodeFrame f) pf k (lines ++ [frameLine f]) f'
      (fun x hx => hgood x (by simp [hx])) hpf hk hfuel']
    simp

theorem splitLF_append10 (l : List Nat) (hl : ∀ b ∈ l, b ≠ 10) :
    splitLF (l ++ [10]) = ([l], []) := by
  induction l with
  | nil => simp [splitLF]
  | cons b t ih =>
    have hb : b ≠ 10 := hl b (by simp)
    have ih' := ih (fun x hx => hl x (by simp [hx]))
    simp [splitLF, ih', hb]

/-- One call of the streaming decoder on a buffer holding complete good
frames followed by a proper front part of one more frame: every complete
frame becomes a line, the front part is the remainder. -/
theorem parseStreaming_frames (fs : List Frame) (pf : Frame) (k : Nat)
    (hgood : ∀ f ∈ fs, GoodFrame f) (hpf : GoodFrame pf)
    (hk : k < (encodeFrame pf).length) :
    parseStreamingLogFrames (encFrames fs ++ (encodeFrame pf).take k) =
      some (fs.map frameLine, (encodeFrame pf).take k) := by
  cases fs with
  | nil =>
    cases k with
    | zero => simp [encFrames, parseStreamingLogFrames, rawDecodeTagged, splitLF]
    | succ k' =>
      have hshape : encFrames [] ++ (encodeFrame pf).take (k' + 1) =
          pf.typ :: ((0 :: 0 :: 0 :: (be4 pf.payload.length ++ pf.payload)).take k') := by
        simp [encFrames, encodeFrame]
      rw [hshape]
      simp only [parseStreamingLogFrames]
      rw [if_pos hpf.1, ← hshape]
      have h := muxLoop_frames [] [] pf (k' + 1) []
        ((encFrames [] ++ (encodeFrame pf).take (k' + 1)).length + 1)
        (by simp) hpf.2.1 hk (by simp)
      simpa [encFrames] using h
  | cons f fs' =>
    have hshape : encFrames (f :: fs') ++ (encodeFrame pf).take k =
        f.typ :: ((0 :: 0 :: 0 :: (be4 f.payload.length ++ f.payload)) ++
          (encFrames fs' ++ (encodeFrame pf).take k)) := by
      simp [encFrames, encodeFrame]
    rw [hshape]
    simp only [parseStreamingLogFrames]
    rw [if_pos (hgood f (by simp)).1, ← hshape]
    have hlb := encFrames_length_ge (f :: fs')
    have h := muxLoop_frames (f :: fs') [] pf k []
      ((encFrames (f :: fs') ++ (encodeFrame pf).take k).length + 1)
      hgood hpf.2.1 hk (by simp at hlb ⊢; omega)
    simpa using h

/-- C4: incremental multiplexed decoding of a partial tail.  For every list
of complete good frames followed by a proper prefix of one more frame, a
single call of the streaming decoder emits exactly one line per complete
frame (payload stripped of trailing whitespace, tagged stderr exactly for
type 2) and hands back exactly the partial-frame bytes as the remainder;
feeding the completing bytes in a second call through the buffer
accumulation emits the final line and leaves an empty remainder. -/
theorem streaming_partial_tail (fs : List Frame) (pf : Frame) (k : Nat)
    (hgood : ∀ f ∈ fs, GoodFrame f) (hpf : GoodFrame pf)
    (hk : k < (encodeFrame pf).length) :
    parseStreamingLogFrames (encFrames fs ++ (encodeFrame pf).take k) =
      some (fs.map frameLine, (encodeFrame pf).take k) ∧
    feedLogs [encFrames fs ++ (encodeFrame pf).take k, (encodeFrame pf).drop k] [] [] =
      some (fs.map frameLine ++ [frameLine pf], []) := by
  have h1 := parseStreaming_frames fs pf k hgood hpf hk
  refine ⟨h1, ?_⟩
  have h2 : parseStreamingLogFrames ((encodeFrame pf).take k ++ (encodeFrame pf).drop k) =
      some ([frameLine pf], []) := by
    rw [List.take_append_drop]
    have := parseStreaming_frames [pf] pf 0 (by simpa using hpf) hpf
      (by rw [encodeFrame_length]; omega)
    simpa [encFrames] using this
  simp only [feedLogs, List.nil_append, h1, h2, List.append_nil]

theorem streaming_partial_tail_witness :
    parseStreamingLogFrames
        (encFrames [Frame.mk 1 [104, 105]] ++ (encodeFrame (Frame.mk 2 [33])).take 3) =
      some ([Frame.mk 1 [104, 105]].map frameLine, (encodeFrame (Frame.mk 2 [33])).take 3) ∧
    feedLogs [encFrames [Frame.mk 1 [104, 105]] ++ (encodeFrame (Frame.mk 2 [33])).take 3,
        (encodeFrame (Frame.mk 2 [33])).drop 3] [] [] =
      some ([Frame.mk 1 [104, 105]].map frameLine ++ [frameLine (Frame.mk 2 [33])], []) :=
  streaming_partial_tail [Frame.mk 1 [104, 105]] (Frame.mk 2 [33]) 3
    (by
      intro f hf
      simp at hf
      subst hf
      exact ⟨by decide, by decide, by decide, by decide⟩)
    ⟨by decide, by decide, by decide, by decide⟩
    (by decide)

/-- C3 (amended): the multiplexed-vs-raw decision is re-made on every call
from the first byte of the then-current buffer, and the large-size raw
fallback lasts only for the current call.  A buffer whose first byte is not
0, 1 or 2 is decoded raw in that call; after a raw-decoded line (whatever
triggered it — a non-marker first byte, or a marker-led buffer whose
declared size exceeds 1,000,000) leaves an empty remainder, the very next
call on a frame-led buffer is decoded as multiplexed again. -/
theorem streaming_log_mode_per_call (h0 : Nat) (xs : List Nat) (f : Frame)
    (hh0 : ¬(h0 = 0 ∨ h0 = 1 ∨ h0 = 2))
    (hnl : ∀ b ∈ h0 :: xs, b ≠ 10)
    (hf : GoodFrame f) :
    parseStreamingLogFrames (h0 :: xs) = some (rawDecodeTagged (h0 :: xs)) ∧
    feedLogs [(h0 :: xs) ++ [10], encodeFrame f] [] [] =
      some ([(h0 :: xs, StreamTag.stdout), frameLine f], []) ∧
    feedLogs [[1, 0, 0, 0, 0, 16, 0, 0, 65, 10], encodeFrame f] [] [] =
      some ([([1, 0, 0, 0, 0, 16, 0, 0, 65], StreamTag.stdout), frameLine f], []) := by
  have hmux : parseStreamingLogFrames (encodeFrame f) = some ([frameLine f], []) := by
    have := parseStreaming_frames [f] f 0 (by simpa using hf) hf
      (by rw [encodeFrame_length]; omega)
    simpa [encFrames] using this
  refine ⟨?_, ?_, ?_⟩
  · simp only [parseStreamingLogFrames]
    rw [if_neg hh0]
  · have hraw : parseStreamingLogFrames ((h0 :: xs) ++ [10]) =
        some ([(h0 :: xs, StreamTag.stdout)], []) := by
      simp only [List.cons_append, parseStreamingLogFrames]
      rw [if_neg hh0]
      simp only [rawDecodeTagged]
      rw [show h0 :: (xs ++ [10]) = (h0 :: xs) ++ [10] from by simp,
        splitLF_append10 _ hnl]
      simp
    simp only [feedLogs, List.nil_append, hraw, hmux, List.append_nil]
    simp
  · have hbig : parseStreamingLogFrames [1, 0, 0, 0, 0, 16, 0, 0, 65, 10] =
        some ([([1, 0, 0, 0, 0, 16, 0, 0, 65], StreamTag.stdout)], []) := by decide
    simp only [feedLogs, List.nil_append, hbig, hmux, List.append_nil]
    simp

theorem streaming_log_mode_per_call_witness :
    parseStreamingLogFrames (65 :: [66]) = some (rawDecodeTagged (65 :: [66])) ∧
    feedLogs [(65 :: [66]) ++ [10], encodeFrame (Frame.mk 2 [33])] [] [] =
      some ([(65 :: [66], StreamTag.stdout), frameLine (Frame.mk 2 [33])], []) ∧
    feedLogs [[1, 0, 0, 0, 0, 16, 0, 0, 65, 10], encodeFrame (Frame.mk 2 [33])] [] [] =
      some ([([1, 0, 0, 0, 0, 16, 0, 0, 65], StreamTag.stdout),
        frameLine (Frame.mk 2 [33])], []) :=
  streaming_log_mode_per_call 65 [66] (Frame.mk 2 [33]) (by decide) (by decide)
    ⟨by decide, by decide, by decide, by decide⟩
